import Mathlib

set_option maxRecDepth 10000

/-!
Verification of the SSH-Config-Gui core (src/arch-app.py) against its
specification.  The Python code is shallowly embedded: strings are Lean
`String`s, the config file is a value (`Option String`, `none` = missing
file), the filesystem directories used by the note store and the session
log are association lists from path to file content, and the stateful
parse loop is an explicit fold over a `ParseState`.

Python string primitives (`str.strip`, `str.lower`, `str.split`,
`str.startswith`, the `in` operator) are modelled character-faithfully
for the ASCII range that SSH config files use.
-/

/-! ### Python string primitives -/

/-- Whitespace as recognised by `str.strip()` / `str.split()` (ASCII range:
space, tab, newline, carriage return, vertical tab, form feed). -/
def isPySpace (c : Char) : Bool :=
  c.toNat = 32 || (9 ≤ c.toNat && c.toNat ≤ 13)

/-- `str.strip()` on the character list: drop leading and trailing whitespace. -/
def stripData (l : List Char) : List Char :=
  (l.dropWhile isPySpace).rdropWhile isPySpace

/-- Python `str.strip()`. -/
def pyStrip (s : String) : String := ⟨stripData s.data⟩

/-- Python `str.strip('"')`: drop all leading and trailing `"` characters. -/
def pyStripQuotes (s : String) : String :=
  ⟨(s.data.dropWhile (· = '"')).rdropWhile (· = '"')⟩

/-- Python `str.lower()` (ASCII letters). -/
def pyLower (s : String) : String := ⟨s.data.map Char.toLower⟩

/-- Python `str.startswith(p)`. -/
def pyStartsWith (p s : String) : Bool := p.data.isPrefixOf s.data

/-- Python `needle in haystack` (substring containment). -/
def pyContains (needle hay : String) : Bool :=
  go needle.data hay.data
where
  go (n : List Char) : List Char → Bool
    | [] => n.isPrefixOf []
    | c :: t => n.isPrefixOf (c :: t) || go n t

/-- Python `s.split(None, 1)`: split on runs of whitespace, at most once,
discarding leading whitespace.  Returns zero, one or two fields. -/
def splitWsOnce (s : String) : List String :=
  let t := s.data.dropWhile isPySpace
  if t = [] then []
  else
    let tok := t.takeWhile (fun c => !isPySpace c)
    let rest := (t.dropWhile (fun c => !isPySpace c)).dropWhile isPySpace
    if rest = [] then [⟨tok⟩] else [⟨tok⟩, ⟨rest⟩]

/-- Python `s.split()[0]` as a fallible operation: `none` models the
`IndexError` raised when the string has no token. -/
def firstTokenOf (s : String) : Option String :=
  let t := s.data.dropWhile isPySpace
  if t = [] then none else some ⟨t.takeWhile (fun c => !isPySpace c)⟩

/-- Python `str.splitlines()` (common line breaks; `\r\n` counts once,
no trailing empty line). -/
def isLineBreak (c : Char) : Bool :=
  c = '\n' || c = '\r' || c.toNat = 11 || c.toNat = 12 ||
  c.toNat = 28 || c.toNat = 29 || c.toNat = 30 || c.toNat = 133 ||
  c.toNat = 8232 || c.toNat = 8233

def splitLinesGo (acc : List Char) : List Char → List String
  | [] => if acc = [] then [] else [⟨acc.reverse⟩]
  | '\r' :: '\n' :: rest => ⟨acc.reverse⟩ :: splitLinesGo [] rest
  | c :: rest =>
    if isLineBreak c then ⟨acc.reverse⟩ :: splitLinesGo [] rest
    else splitLinesGo (c :: acc) rest

def pySplitLines (s : String) : List String := splitLinesGo [] s.data

/-! ### Data model -/

/-- One `Host` block of the configuration file (`SshHostEntry` in the
source); `options` is the Python dict, modelled as an association list in
insertion order with unique keys. -/
structure SshHostEntry where
  host_alias : String
  options : List (String × String)
deriving DecidableEq

/-- Python `dict.get(k, d)`. -/
def optGet (opts : List (String × String)) (k d : String) : String :=
  match opts.lookup k with
  | some v => v
  | none => d

/-- Python `dict[k] = v`: update in place if the key exists, else append. -/
def assocSet (opts : List (String × String)) (k v : String) :
    List (String × String) :=
  match opts with
  | [] => [(k, v)]
  | (k', v') :: t => if k' = k then (k, v) :: t else (k', v') :: assocSet t k v

/-- `SshHostEntry.getDisplayLine` from the source. -/
def getDisplayLine (e : SshHostEntry) : String :=
  let host_name := optGet e.options "hostname" ""
  let user_name := optGet e.options "user" ""
  let port := optGet e.options "port" ""
  let right_parts : List String :=
    (if user_name ≠ "" ∧ host_name ≠ "" then [user_name ++ "@" ++ host_name]
     else if host_name ≠ "" then [host_name]
     else []) ++
    (if port ≠ "" then [":" ++ port] else [])
  let right := if right_parts = [] then "(kein Hostname)"
               else String.join right_parts
  e.host_alias ++ "  (" ++ right ++ ")"

/-! ### The config parser (`SshConfigParser.parseFile`) -/

/-- `line.split(maxsplit=1)[1].strip().split()[0]` of a `Host` line:
the canonical alias token.  `none` models the `IndexError` cases. -/
def hostAliasToken (line : String) : Option String :=
  match splitWsOnce line with
  | [_, rest] => firstTokenOf (pyStrip rest)
  | _ => none

/-- State of the parse loop: entries emitted so far, the in-progress
entry, and whether an exception was raised (caught by the source's
`except` clause). -/
structure ParseState where
  entries : List SshHostEntry
  current : Option SshHostEntry
  aborted : Bool
deriving DecidableEq

/-- One iteration of the `for raw_line in ...` loop of `parseFile`. -/
def parseStep (st : ParseState) (raw : String) : ParseState :=
  if st.aborted then st
  else
    let line := pyStrip raw
    if line = "" ∨ pyStartsWith "#" line = true then st
    else if pyStartsWith "host " (pyLower line) = true then
      let entries' := st.entries ++ st.current.toList
      match hostAliasToken line with
      | some tok => ⟨entries', some ⟨tok, []⟩, false⟩
      | none => ⟨entries', none, true⟩
    else
      match st.current with
      | none => st
      | some e =>
        match splitWsOnce line with
        | [k, v] =>
          { st with current := some ⟨e.host_alias,
              assocSet e.options (pyLower (pyStrip k))
                (pyStripQuotes (pyStrip v))⟩ }
        | _ => st

def parseLinesRaw (ls : List String) : ParseState :=
  ls.foldl parseStep ⟨[], none, false⟩

/-- `any(ch in entry.host_alias for ch in ["*", "?", "!"])`. -/
def hasWildcard (s : String) : Bool :=
  ["*", "?", "!"].any (fun ch => pyContains ch s)

/-- The body of `parseFile` after the file has been read and split into
lines: run the loop, finalize the last entry (unless an exception was
raised first), and filter out wildcard aliases. -/
def parseLines (ls : List String) : List SshHostEntry :=
  let st := parseLinesRaw ls
  let entries := st.entries ++ (if st.aborted then [] else st.current.toList)
  entries.filter (fun e => !hasWildcard e.host_alias)

/-- `SshConfigParser.parseFile`: `none` models a missing (or unreadable)
file, which yields `[]`. -/
def parseFile (t : Option String) : List SshHostEntry :=
  match t with
  | none => []
  | some text => parseLines (pySplitLines text)

/-! ### The config mutator (`SshGui.addKeyToConfig`) -/

/-- `line.strip().lower().startswith('host ')`. -/
def lineIsHost (l : String) : Bool := pyStartsWith "host " (pyLower (pyStrip l))

/-- The loop of `addKeyToConfig` over the remaining lines, carrying the
`in_target_host` and `identity_added` flags.  Returns the rewritten lines
and the final `identity_added` flag. -/
def addKeyAux (a path : String) (inT added : Bool) :
    List String → List String × Bool
  | [] => ([], added)
  | l :: ls =>
    if lineIsHost l = true ∧ pyContains a l = true then
      let r := addKeyAux a path true added ls
      (l :: r.1, r.2)
    else if inT = true ∧ lineIsHost l = true then
      let r := addKeyAux a path false added ls
      (l :: r.1, r.2)
    else if inT = true ∧ added = false ∧ pyStrip l ≠ "" ∧
        pyStartsWith "#" (pyStrip l) = false then
      let r := addKeyAux a path inT true ls
      (l :: ("  IdentityFile " ++ path) :: r.1, r.2)
    else
      let r := addKeyAux a path inT added ls
      (l :: r.1, r.2)

/-- `addKeyToConfig` at the level of the line list obtained from
`config_content.split('\n')`; the flag is `identity_added` (the file is
rewritten only when it is `true`). -/
def addKeyLines (lines : List String) (a path : String) :
    List String × Bool :=
  addKeyAux a path false false lines

/-- `addKeyToConfig` on the whole config text (`split('\n')`, rewrite,
rejoin with newlines). -/
def addKeyToConfig (text a path : String) : String × Bool :=
  let r := addKeyLines (text.splitOn "\n") a path
  (String.intercalate "\n" r.1, r.2)

/-! ### MD5 and the host fingerprint (`SshGui.getHostHash`) -/

/-- UTF-8 encoding of one character (`str.encode()`), bytes as `Nat`. -/
def utf8Char (c : Char) : List Nat :=
  let n := c.toNat
  if n < 128 then [n]
  else if n < 2048 then [192 + n / 64, 128 + n % 64]
  else if n < 65536 then [224 + n / 4096, 128 + n / 64 % 64, 128 + n % 64]
  else [240 + n / 262144, 128 + n / 4096 % 64, 128 + n / 64 % 64, 128 + n % 64]

/-- UTF-8 encoding of a string. -/
def utf8Encode (s : String) : List Nat := (s.data.map utf8Char).flatten

def m32 : Nat := 4294967296

def add32 (a b : Nat) : Nat := (a + b) % m32

def rotl32 (x s : Nat) : Nat := (x * 2 ^ s + x / 2 ^ (32 - s)) % m32

def bnot32 (x : Nat) : Nat := x ^^^ 4294967295

/-- The per-round mixing functions F, G, H, I of MD5. -/
def md5F (i b c d : Nat) : Nat :=
  if i < 16 then (b &&& c) ||| (bnot32 b &&& d)
  else if i < 32 then (d &&& b) ||| (bnot32 d &&& c)
  else if i < 48 then b ^^^ c ^^^ d
  else c ^^^ (b ||| bnot32 d)

/-- The message-word index for round `i`. -/
def md5G (i : Nat) : Nat :=
  if i < 16 then i
  else if i < 32 then (5 * i + 1) % 16
  else if i < 48 then (3 * i + 5) % 16
  else (7 * i) % 16

/-- Per-round left-rotation amounts. -/
def md5S : List Nat :=
  [7, 12, 17, 22, 7, 12, 17, 22, 7, 12, 17, 22, 7, 12, 17, 22,
   5, 9, 14, 20, 5, 9, 14, 20, 5, 9, 14, 20, 5, 9, 14, 20,
   4, 11, 16, 23, 4, 11, 16, 23, 4, 11, 16, 23, 4, 11, 16, 23,
   6, 10, 15, 21, 6, 10, 15, 21, 6, 10, 15, 21, 6, 10, 15, 21]

/-- Per-round additive constants (⌊2³²·|sin(i+1)|⌋). -/
def md5K : List Nat :=
  [0xd76aa478, 0xe8c7b756, 0x242070db, 0xc1bdceee,
   0xf57c0faf, 0x4787c62a, 0xa8304613, 0xfd469501,
   0x698098d8, 0x8b44f7af, 0xffff5bb1, 0x895cd7be,
   0x6b901122, 0xfd987193, 0xa679438e, 0x49b40821,
   0xf61e2562, 0xc040b340, 0x265e5a51, 0xe9b6c7aa,
   0xd62f105d, 0x02441453, 0xd8a1e681, 0xe7d3fbc8,
   0x21e1cde6, 0xc33707d6, 0xf4d50d87, 0x455a14ed,
   0xa9e3e905, 0xfcefa3f8, 0x676f02d9, 0x8d2a4c8a,
   0xfffa3942, 0x8771f681, 0x6d9d6122, 0xfde5380c,
   0xa4beea44, 0x4bdecfa9, 0xf6bb4b60, 0xbebfbc70,
   0x289b7ec6, 0xeaa127fa, 0xd4ef3085, 0x04881d05,
   0xd9d4d039, 0xe6db99e5, 0x1fa27cf8, 0xc4ac5665,
   0xf4292244, 0x432aff97, 0xab9423a7, 0xfc93a039,
   0x655b59c3, 0x8f0ccc92, 0xffeff47d, 0x85845dd1,
   0x6fa87e4f, 0xfe2ce6e0, 0xa3014314, 0x4e0811a1,
   0xf7537e82, 0xbd3af235, 0x2ad7d2bb, 0xeb86d391]

def md5Round (M : List Nat) (st : Nat × Nat × Nat × Nat) (i : Nat) :
    Nat × Nat × Nat × Nat :=
  let a := st.1
  let b := st.2.1
  let c := st.2.2.1
  let d := st.2.2.2
  let f := md5F i b c d
  let sum := add32 (add32 (add32 a f) (md5K.getD i 0)) (M.getD (md5G i) 0)
  (d, add32 b (rotl32 sum (md5S.getD i 0)), b, c)

/-- Process one 64-byte chunk. -/
def md5Chunk (st : Nat × Nat × Nat × Nat) (chunk : List Nat) :
    Nat × Nat × Nat × Nat :=
  let M := (List.range 16).map (fun j =>
    chunk.getD (4 * j) 0 + 256 * chunk.getD (4 * j + 1) 0 +
    65536 * chunk.getD (4 * j + 2) 0 + 16777216 * chunk.getD (4 * j + 3) 0)
  let r := (List.range 64).foldl (md5Round M) (st.1, st.2.1, st.2.2.1, st.2.2.2)
  (add32 st.1 r.1, add32 st.2.1 r.2.1, add32 st.2.2.1 r.2.2.1,
   add32 st.2.2.2 r.2.2.2)

def chunks64Go : Nat → List Nat → List (List Nat)
  | _, [] => []
  | 0, _ => []
  | fuel + 1, l => l.take 64 :: chunks64Go fuel (l.drop 64)

/-- Split a byte list into 64-byte chunks (the fuel, the list length, is
always sufficient because every step consumes at least one element). -/
def chunks64 (l : List Nat) : List (List Nat) := chunks64Go l.length l

/-- Little-endian bytes of a 64-bit length value. -/
def le8 (n : Nat) : List Nat :=
  [n % 256, n / 256 % 256, n / 65536 % 256, n / 16777216 % 256,
   n / 4294967296 % 256, n / 1099511627776 % 256,
   n / 281474976710656 % 256, n / 72057594037927936 % 256]

/-- Little-endian bytes of one 32-bit state word. -/
def le4 (n : Nat) : List Nat :=
  [n % 256, n / 256 % 256, n / 65536 % 256, n / 16777216 % 256]

/-- MD5 padding: `0x80`, zeros to 56 mod 64, then the bit length as a
little-endian 64-bit value. -/
def md5Pad (msg : List Nat) : List Nat :=
  msg ++ [128] ++ List.replicate ((119 - msg.length % 64) % 64) 0 ++
    le8 ((8 * msg.length) % (2 ^ 64))

/-- The 16-byte MD5 digest of a byte sequence. -/
def md5Bytes (msg : List Nat) : List Nat :=
  let r := (chunks64 (md5Pad msg)).foldl md5Chunk
    (0x67452301, 0xefcdab89, 0x98badcfe, 0x10325476)
  le4 r.1 ++ le4 r.2.1 ++ le4 r.2.2.1 ++ le4 r.2.2.2

/-- Lowercase hex digit of `n % 16`. -/
def hexChar (n : Nat) : Char := "0123456789abcdef".data.getD (n % 16) '0'

/-- `hexdigest()` of a byte list. -/
def hexOfBytes (bs : List Nat) : String :=
  ⟨(bs.map (fun b => [hexChar (b / 16), hexChar (b % 16)])).flatten⟩

/-- `hashlib.md5(s.encode()).hexdigest()`. -/
def md5Hex (s : String) : String := hexOfBytes (md5Bytes (utf8Encode s))

/-- `SshGui.getHostHash`: first 12 hex characters of the MD5 of
`entry.options.get("hostname", entry.host_alias)`. -/
def getHostHash (e : SshHostEntry) : String :=
  ⟨(md5Hex (optGet e.options "hostname" e.host_alias)).data.take 12⟩

/-! ### JSON (the subset used by `json.dumps(..., indent=2,
ensure_ascii=False)` and needed to read the note records back) -/

/-- Encoding of one character inside a JSON string literal, as
`json.dumps` with `ensure_ascii=False` produces it: `"` and `\`
are escaped, the named control escapes are used for 8, 9, 10, 12, 13,
other control characters become `\u00xx`, everything else is literal. -/
def jsonEscChar (c : Char) : List Char :=
  if c = '\\' then ['\\', '\\']
  else if c = '"' then ['\\', '"']
  else if c.toNat = 8 then ['\\', 'b']
  else if c = '\t' then ['\\', 't']
  else if c = '\n' then ['\\', 'n']
  else if c.toNat = 12 then ['\\', 'f']
  else if c.toNat = 13 then ['\\', 'r']
  else if c.toNat < 32 then
    ['\\', 'u', '0', '0', hexChar (c.toNat / 16), hexChar (c.toNat % 16)]
  else [c]

/-- A JSON string literal (quotes included). -/
def jsonEncodeString (s : String) : String :=
  ⟨'"' :: (s.data.map jsonEscChar).flatten ++ ['"']⟩

/-- The exact text `json.dumps(data, indent=2, ensure_ascii=False)`
produces for the note record dict written by `saveNotes`. -/
def dumpsNotes (ha hn notes hsh : String) : String :=
  "\x7b\n  " ++ jsonEncodeString "host_alias" ++ ": " ++ jsonEncodeString ha ++
  ",\n  " ++ jsonEncodeString "hostname" ++ ": " ++ jsonEncodeString hn ++
  ",\n  " ++ jsonEncodeString "notes" ++ ": " ++ jsonEncodeString notes ++
  ",\n  " ++ jsonEncodeString "hash" ++ ": " ++ jsonEncodeString hsh ++
  "\n\x7d"

/-- Numeric value of one hex digit. -/
def hexVal (c : Char) : Option Nat :=
  if 48 ≤ c.toNat ∧ c.toNat ≤ 57 then some (c.toNat - 48)
  else if 97 ≤ c.toNat ∧ c.toNat ≤ 102 then some (c.toNat - 87)
  else if 65 ≤ c.toNat ∧ c.toNat ≤ 70 then some (c.toNat - 55)
  else none

def hex4 (a b c d : Char) : Option Nat :=
  match hexVal a, hexVal b, hexVal c, hexVal d with
  | some va, some vb, some vc, some vd =>
    some (4096 * va + 256 * vb + 16 * vc + vd)
  | _, _, _, _ => none

/-- Read the body of a JSON string literal (after the opening quote),
returning the decoded characters and the remaining input.  `none` models
a decode error (`json.loads` raising). -/
def readJsonString : List Char → Option (List Char × List Char)
  | [] => none
  | c :: r =>
    if c = '"' then some ([], r)
    else if c = '\\' then
      match r with
      | [] => none
      | e :: r' =>
        if e = '"' then (readJsonString r').map (fun p => ('"' :: p.1, p.2))
        else if e = '\\' then
          (readJsonString r').map (fun p => ('\\' :: p.1, p.2))
        else if e = '/' then
          (readJsonString r').map (fun p => ('/' :: p.1, p.2))
        else if e = 'b' then
          (readJsonString r').map (fun p => (Char.ofNat 8 :: p.1, p.2))
        else if e = 'f' then
          (readJsonString r').map (fun p => (Char.ofNat 12 :: p.1, p.2))
        else if e = 'n' then
          (readJsonString r').map (fun p => ('\n' :: p.1, p.2))
        else if e = 'r' then
          (readJsonString r').map (fun p => (Char.ofNat 13 :: p.1, p.2))
        else if e = 't' then
          (readJsonString r').map (fun p => ('\t' :: p.1, p.2))
        else if e = 'u' then
          match r' with
          | h1 :: h2 :: h3 :: h4 :: r4 =>
            match hex4 h1 h2 h3 h4 with
            | some code =>
              if code < 55296 then
                (readJsonString r4).map (fun p => (Char.ofNat code :: p.1, p.2))
              else none
            | none => none
          | _ => none
        else none
    else if c.toNat < 32 then none
    else (readJsonString r).map (fun p => (c :: p.1, p.2))

def isJsonWs (c : Char) : Bool :=
  c.toNat = 32 || c.toNat = 9 || c.toNat = 10 || c.toNat = 13

def skipWs (l : List Char) : List Char := l.dropWhile isJsonWs

/-- Read the members of a JSON object whose values are all strings;
`fuel` bounds the number of members. -/
def readMembers : Nat → List Char → Option (List (String × String) × List Char)
  | 0, _ => none
  | fuel + 1, l =>
    match skipWs l with
    | '"' :: r =>
      match readJsonString r with
      | none => none
      | some (kcs, r1) =>
        match skipWs r1 with
        | ':' :: r2 =>
          match skipWs r2 with
          | '"' :: r3 =>
            match readJsonString r3 with
            | none => none
            | some (vcs, r4) =>
              match skipWs r4 with
              | ',' :: r5 =>
                (readMembers fuel r5).map
                  (fun p => ((⟨kcs⟩, ⟨vcs⟩) :: p.1, p.2))
              | '}' :: r5 => some ([(⟨kcs⟩, ⟨vcs⟩)], r5)
              | _ => none
          | _ => none
        | _ => none
    | _ => none

/-- `json.loads` restricted to the documents `saveNotes` can write: an
object whose values are strings.  Anything else is `none` ("unparsable"),
modelling the exception swallowed by `loadNotes`. -/
def parseNotesDoc (s : String) : Option (List (String × String)) :=
  match skipWs s.data with
  | '{' :: r =>
    match skipWs r with
    | '}' :: rest => if skipWs rest = [] then some [] else none
    | _ =>
      match readMembers (s.length + 1) r with
      | some (ms, rest) => if skipWs rest = [] then some ms else none
      | none => none
  | _ => none

/-! ### The note store (`SshGui.getNotesPath` / `loadNotes` / `saveNotes`)

The notes directory is modelled as an association list from file name to
file content. -/

/-- `SshGui.getNotesPath`: the note file name inside the notes
directory. -/
def getNotesPath (e : SshHostEntry) : String := getHostHash e ++ ".json"

/-- `SshGui.saveNotes`: overwrite the note file with the serialized
record. -/
def saveNotes (store : List (String × String)) (e : SshHostEntry)
    (notes : String) : List (String × String) :=
  assocSet store (getNotesPath e)
    (dumpsNotes e.host_alias (optGet e.options "hostname" "") notes
      (getHostHash e))

/-- `SshGui.loadNotes`: read the note file; a missing or unparsable file
yields `""` (the exception is caught). -/
def loadNotes (store : List (String × String)) (e : SshHostEntry) : String :=
  match store.lookup (getNotesPath e) with
  | none => ""
  | some txt =>
    match parseNotesDoc txt with
    | none => ""
    | some fields => optGet fields "notes" ""

/-! ### The session log (`SshGui.logSession`)

The log directory is an association list from file name to content; the
wall-clock timestamp string is passed in as a parameter. -/

/-- The fields taken from `self.selected_entry` (or `"N/A"`, with the
port defaulting to `"22"`). -/
def selHostName (sel : Option SshHostEntry) : String :=
  match sel with
  | some e => optGet e.options "hostname" "N/A"
  | none => "N/A"

def selUserName (sel : Option SshHostEntry) : String :=
  match sel with
  | some e => optGet e.options "user" "N/A"
  | none => "N/A"

def selPort (sel : Option SshHostEntry) : String :=
  match sel with
  | some e => optGet e.options "port" "22"
  | none => "22"

/-- The single line appended per call of `logSession`. -/
def logLine (timestamp connection_type : String) (success : Bool)
    (sel : Option SshHostEntry) : String :=
  "[" ++ timestamp ++ "] " ++ connection_type ++ " (" ++
  (if success then "✓ Erfolg" else "✗ Fehler") ++ ") | user@host: " ++
  selUserName sel ++ "@" ++ selHostName sel ++ ":" ++ selPort sel ++ "\n"

/-- `SshGui.logSession`: append the line to `{host_alias}.log` (mode
`"a"` creates the file when absent). -/
def logSession (store : List (String × String)) (host_alias : String)
    (timestamp connection_type : String) (success : Bool)
    (sel : Option SshHostEntry) : List (String × String) :=
  let key := host_alias ++ ".log"
  assocSet store key
    (optGet store key "" ++ logLine timestamp connection_type success sel)

/-- One call of the session-log operation, for iterating `logSession`. -/
structure LogCall where
  timestamp : String
  connection_type : String
  success : Bool
  sel : Option SshHostEntry

def logLineOf (c : LogCall) : String :=
  logLine c.timestamp c.connection_type c.success c.sel

/-- Fold a sequence of log calls for one alias over the store. -/
def logRuns (store : List (String × String)) (host_alias : String)
    (calls : List LogCall) : List (String × String) :=
  calls.foldl (fun st c =>
    logSession st host_alias c.timestamp c.connection_type c.success c.sel)
    store

/-! ### Basic lemmas about the string primitives -/

theorem dropWhile_head_not {p : Char → Bool} {l : List Char} {c : Char}
    {t : List Char} (h : l.dropWhile p = c :: t) : p c = false := by
  induction l with
  | nil => simp at h
  | cons a l ih =>
    rw [List.dropWhile_cons] at h
    by_cases hp : p a
    · exact ih (by simpa [hp] using h)
    · simp [hp] at h
      simp [← h.1]
      simpa using hp

theorem charToNat_ofNat {n : Nat} (h : n.isValidChar) :
    (Char.ofNat n).toNat = n := by
  simp only [Char.ofNat, dif_pos h, Char.ofNatAux, Char.toNat]
  rfl

theorem isPySpace_toLower (c : Char) :
    isPySpace (Char.toLower c) = isPySpace c := by
  by_cases h : c.toNat >= 65 ∧ c.toNat <= 90
  · have hv : (Char.ofNat (c.toNat + 32)).toNat = c.toNat + 32 :=
      charToNat_ofNat (Or.inl (by omega))
    simp only [Char.toLower, if_pos h, isPySpace, hv]
    have h1 : ¬(c.toNat + 32 = 32) := by omega
    have h2 : ¬(c.toNat = 32) := by omega
    have h3 : ¬(9 ≤ c.toNat + 32 ∧ c.toNat + 32 ≤ 13) := by omega
    have h4 : ¬(9 ≤ c.toNat ∧ c.toNat ≤ 13) := by omega
    simp [h1, h2]
    omega
  · simp only [Char.toLower, if_neg h]

theorem stripData_prefix (l : List Char) :
    stripData l <+: l.dropWhile isPySpace :=
  List.rdropWhile_prefix _ _

theorem stripData_head_not {l : List Char} {c : Char} {t : List Char}
    (h : stripData l = c :: t) : isPySpace c = false := by
  have hp := stripData_prefix l
  rw [h] at hp
  obtain ⟨s, hs⟩ := hp
  have hdw : l.dropWhile isPySpace = c :: (t ++ s) := by
    rw [← hs]
    simp
  exact dropWhile_head_not hdw

theorem stripData_getLast?_not {l : List Char} {c : Char}
    (h : (stripData l).getLast? = some c) : isPySpace c = false := by
  have hne : stripData l ≠ [] := by
    intro h'
    rw [h'] at h
    simp at h
  have hlast := List.rdropWhile_last_not isPySpace (l.dropWhile isPySpace) hne
  have := List.getLast?_eq_getLast (stripData l) hne
  rw [this] at h
  have hc : c = (stripData l).getLast hne := by
    exact (Option.some.injEq _ _ ▸ h).symm
  rw [hc]
  simpa using hlast

theorem hostPrefix_shape (d : List Char)
    (h : pyStartsWith "host " ⟨d.map Char.toLower⟩ = true) :
    ∃ x0 x1 x2 x3 x4 xs, d = x0 :: x1 :: x2 :: x3 :: x4 :: xs ∧
      Char.toLower x0 = 'h' ∧ Char.toLower x1 = 'o' ∧
      Char.toLower x2 = 's' ∧ Char.toLower x3 = 't' ∧
      Char.toLower x4 = ' ' := by
  match d with
  | [] => simp [pyStartsWith, List.isPrefixOf] at h
  | [_] => simp [pyStartsWith, List.isPrefixOf] at h
  | [_, _] => simp [pyStartsWith, List.isPrefixOf] at h
  | [_, _, _] => simp [pyStartsWith, List.isPrefixOf] at h
  | [_, _, _, _] => simp [pyStartsWith, List.isPrefixOf] at h
  | x0 :: x1 :: x2 :: x3 :: x4 :: xs =>
    simp only [pyStartsWith, List.map_cons] at h
    simp only [show ("host ").data = ['h', 'o', 's', 't', ' '] from rfl,
      List.isPrefixOf, Bool.and_eq_true, beq_iff_eq] at h
    exact ⟨x0, x1, x2, x3, x4, xs, rfl, h.1.symm, h.2.1.symm, h.2.2.1.symm,
      h.2.2.2.1.symm, h.2.2.2.2.1.symm⟩

theorem hostAliasToken_isSome {raw : String}
    (h : pyStartsWith "host " (pyLower (pyStrip raw)) = true) :
    ∃ tok, hostAliasToken (pyStrip raw) = some tok := by
  obtain ⟨x0, x1, x2, x3, x4, xs, hd, h0, h1, h2, h3, h4⟩ :=
    hostPrefix_shape (stripData raw.data) h
  have hw0 : isPySpace x0 = false := by rw [← isPySpace_toLower, h0]; decide
  have hw1 : isPySpace x1 = false := by rw [← isPySpace_toLower, h1]; decide
  have hw2 : isPySpace x2 = false := by rw [← isPySpace_toLower, h2]; decide
  have hw3 : isPySpace x3 = false := by rw [← isPySpace_toLower, h3]; decide
  have hw4 : isPySpace x4 = true := by rw [← isPySpace_toLower, h4]; decide
  have hxs : xs ≠ [] := by
    intro hnil
    subst hnil
    have hg : (stripData raw.data).getLast? = some x4 := by rw [hd]; rfl
    have := stripData_getLast?_not hg
    rw [hw4] at this
    cases this
  obtain ⟨y, ys, hys⟩ := List.exists_cons_of_ne_nil hxs
  have hrest : xs.dropWhile isPySpace ≠ [] := by
    intro hnil
    have hall := List.dropWhile_eq_nil_iff.mp hnil
    have hlast : (stripData raw.data).getLast? =
        some ((y :: ys).getLast (by simp)) := by
      rw [hd, hys, List.getLast?_cons_cons, List.getLast?_cons_cons,
        List.getLast?_cons_cons, List.getLast?_cons_cons,
        List.getLast?_cons_cons]
      exact List.getLast?_eq_getLast _ _
    have hnotws := stripData_getLast?_not hlast
    have hmem : (y :: ys).getLast (by simp) ∈ xs := by
      rw [hys]
      exact List.getLast_mem _
    have := hall _ hmem
    rw [hnotws] at this
    cases this
  have hsplit : splitWsOnce ⟨stripData raw.data⟩ =
      [⟨[x0, x1, x2, x3]⟩, ⟨xs.dropWhile isPySpace⟩] := by
    rw [hd]
    simp [splitWsOnce, hw0, hw1, hw2, hw3, hw4, hrest]
  obtain ⟨r0, rt, hr⟩ := List.exists_cons_of_ne_nil hrest
  have hwr0 : isPySpace r0 = false := dropWhile_head_not hr
  have hsd : stripData (xs.dropWhile isPySpace) ≠ [] := by
    intro hnil
    rw [stripData, hr, List.dropWhile_cons_of_neg (by simp [hwr0]),
      List.rdropWhile_eq_nil_iff] at hnil
    have := hnil r0 (by simp)
    rw [hwr0] at this
    cases this
  obtain ⟨c, ct, hct⟩ := List.exists_cons_of_ne_nil hsd
  have hwc : isPySpace c = false := stripData_head_not hct
  refine ⟨⟨(c :: ct).takeWhile (fun ch => !isPySpace ch)⟩, ?_⟩
  show hostAliasToken ⟨stripData raw.data⟩ = _
  rw [hostAliasToken, hsplit]
  show firstTokenOf ⟨stripData (xs.dropWhile isPySpace)⟩ = _
  rw [firstTokenOf]
  simp only [hct]
  rw [List.dropWhile_cons_of_neg (by simp [hwc])]
  simp

theorem hostLine_ne_empty {raw : String}
    (hh : pyStartsWith "host " (pyLower (pyStrip raw)) = true) :
    pyStrip raw ≠ "" := by
  obtain ⟨x0, x1, x2, x3, x4, xs, hd, -, -, -, -, -⟩ :=
    hostPrefix_shape (stripData raw.data) hh
  intro he
  have hda : (pyStrip raw).data = [] := congrArg String.data he
  rw [show (pyStrip raw).data = stripData raw.data from rfl, hd] at hda
  cases hda

theorem hostLine_not_comment {raw : String}
    (hh : pyStartsWith "host " (pyLower (pyStrip raw)) = true) :
    pyStartsWith "#" (pyStrip raw) = false := by
  obtain ⟨x0, x1, x2, x3, x4, xs, hd, h0, -, -, -, -⟩ :=
    hostPrefix_shape (stripData raw.data) hh
  have hx0 : x0 ≠ '#' := by
    intro h'
    rw [h'] at h0
    exact absurd h0 (by decide)
  show ("#").data.isPrefixOf (stripData raw.data) = false
  rw [hd]
  show List.isPrefixOf ['#'] _ = false
  simp [List.isPrefixOf, Ne.symm hx0]

theorem parseStep_host (st : ParseState) {raw : String}
    (hab : st.aborted = false)
    (hh : pyStartsWith "host " (pyLower (pyStrip raw)) = true) :
    ∃ tok, hostAliasToken (pyStrip raw) = some tok ∧
      parseStep st raw =
        ⟨st.entries ++ st.current.toList, some ⟨tok, []⟩, false⟩ := by
  obtain ⟨tok, htok⟩ := hostAliasToken_isSome hh
  refine ⟨tok, htok, ?_⟩
  rw [parseStep]
  rw [if_neg (by rw [hab]; exact Bool.false_ne_true)]
  rw [if_neg (by
    intro hcase
    cases hcase with
    | inl h' => exact hostLine_ne_empty hh h'
    | inr h' => rw [hostLine_not_comment hh] at h'; cases h')]
  rw [if_pos hh, htok]

theorem parseStep_skip {st : ParseState} {raw : String}
    (h : pyStrip raw = "" ∨ pyStartsWith "#" (pyStrip raw) = true) :
    parseStep st raw = st := by
  rw [parseStep]
  by_cases hab : st.aborted = true
  · rw [if_pos hab]
  · rw [if_neg hab, if_pos h]

theorem parseStep_directive {st : ParseState} {raw : String}
    (hab : st.aborted = false) (hne : pyStrip raw ≠ "")
    (hcom : pyStartsWith "#" (pyStrip raw) = false)
    (hh : pyStartsWith "host " (pyLower (pyStrip raw)) = false) :
    parseStep st raw =
      match st.current with
      | none => st
      | some e =>
        match splitWsOnce (pyStrip raw) with
        | [k, v] =>
          { st with current := some ⟨e.host_alias,
              assocSet e.options (pyLower (pyStrip k))
                (pyStripQuotes (pyStrip v))⟩ }
        | _ => st := by
  rw [parseStep]
  rw [if_neg (by rw [hab]; exact Bool.false_ne_true)]
  rw [if_neg (by
    intro hcase
    cases hcase with
    | inl h' => exact hne h'
    | inr h' => rw [hcom] at h'; cases h')]
  rw [if_neg (by rw [hh]; exact Bool.false_ne_true)]

theorem parseStep_aborted_false {st : ParseState} {raw : String}
    (hab : st.aborted = false) : (parseStep st raw).aborted = false := by
  by_cases hsk : pyStrip raw = "" ∨ pyStartsWith "#" (pyStrip raw) = true
  · rw [parseStep_skip hsk, hab]
  · by_cases hh : pyStartsWith "host " (pyLower (pyStrip raw)) = true
    · obtain ⟨tok, -, hstep⟩ := parseStep_host st hab hh
      rw [hstep]
    · push_neg at hsk
      rw [parseStep_directive hab hsk.1
        (by cases hb : pyStartsWith "#" (pyStrip raw) with
            | true => exact absurd hb hsk.2
            | false => rfl)
        (by cases hb : pyStartsWith "host " (pyLower (pyStrip raw)) with
            | true => exact absurd hb hh
            | false => rfl)]
      cases hc : st.current with
      | none => exact hab
      | some e =>
        rcases hs : splitWsOnce (pyStrip raw) with - | ⟨k, - | ⟨v, - | -⟩⟩ <;>
          simp [hab]

theorem parseFold_aborted_false (ls : List String) :
    ∀ st : ParseState, st.aborted = false →
      (ls.foldl parseStep st).aborted = false := by
  induction ls with
  | nil => intro st h; exact h
  | cons l ls ih =>
    intro st h
    exact ih _ (parseStep_aborted_false h)

theorem parseLinesRaw_not_aborted (ls : List String) :
    (parseLinesRaw ls).aborted = false :=
  parseFold_aborted_false ls _ rfl

theorem parseStep_shift (E es : List SshHostEntry) (cur : Option SshHostEntry)
    (ab : Bool) (raw : String) :
    parseStep ⟨E ++ es, cur, ab⟩ raw =
      ⟨E ++ (parseStep ⟨es, cur, ab⟩ raw).entries,
       (parseStep ⟨es, cur, ab⟩ raw).current,
       (parseStep ⟨es, cur, ab⟩ raw).aborted⟩ := by
  cases ab with
  | true => simp [parseStep]
  | false =>
    by_cases hsk : pyStrip raw = "" ∨ pyStartsWith "#" (pyStrip raw) = true
    · rw [parseStep_skip hsk, parseStep_skip hsk]
    · by_cases hh : pyStartsWith "host " (pyLower (pyStrip raw)) = true
      · obtain ⟨tok1, ht1, hs1⟩ :=
          parseStep_host ⟨E ++ es, cur, false⟩ rfl hh
        obtain ⟨tok2, ht2, hs2⟩ :=
          parseStep_host ⟨es, cur, false⟩ rfl hh
        have htt : tok1 = tok2 := by
          have := ht1.symm.trans ht2
          exact Option.some.inj this
        rw [hs1, hs2, htt]
        simp
      · push_neg at hsk
        have hcom : pyStartsWith "#" (pyStrip raw) = false := by
          cases hb : pyStartsWith "#" (pyStrip raw) with
          | true => exact absurd hb hsk.2
          | false => rfl
        have hhf : pyStartsWith "host " (pyLower (pyStrip raw)) = false := by
          cases hb : pyStartsWith "host " (pyLower (pyStrip raw)) with
          | true => exact absurd hb hh
          | false => rfl
        rw [parseStep_directive rfl hsk.1 hcom hhf,
          parseStep_directive rfl hsk.1 hcom hhf]
        cases cur with
        | none => rfl
        | some e =>
          rcases hs : splitWsOnce (pyStrip raw) with - | ⟨k, - | ⟨v, - | -⟩⟩ <;>
            rfl

theorem parseFold_shift (ls : List String) :
    ∀ (E es : List SshHostEntry) (cur : Option SshHostEntry) (ab : Bool),
      ls.foldl parseStep ⟨E ++ es, cur, ab⟩ =
        ⟨E ++ (ls.foldl parseStep ⟨es, cur, ab⟩).entries,
         (ls.foldl parseStep ⟨es, cur, ab⟩).current,
         (ls.foldl parseStep ⟨es, cur, ab⟩).aborted⟩ := by
  induction ls with
  | nil => intro E es cur ab; rfl
  | cons l ls ih =>
    intro E es cur ab
    show ls.foldl parseStep (parseStep ⟨E ++ es, cur, ab⟩ l) = _
    rw [parseStep_shift]
    have := ih E (parseStep ⟨es, cur, ab⟩ l).entries
      (parseStep ⟨es, cur, ab⟩ l).current (parseStep ⟨es, cur, ab⟩ l).aborted
    simp only [List.foldl_cons]
    convert this using 2

theorem parseFold_directives {D : List String}
    (hD : ∀ d ∈ D, pyStartsWith "host " (pyLower (pyStrip d)) = false) :
    ∀ (es : List SshHostEntry) (e : SshHostEntry),
      ∃ opts, D.foldl parseStep ⟨es, some e, false⟩ =
        ⟨es, some ⟨e.host_alias, opts⟩, false⟩ := by
  induction D with
  | nil => exact fun es e => ⟨e.options, rfl⟩
  | cons d D ih =>
    intro es e
    have hd := hD d (by simp)
    have hD' : ∀ x ∈ D, pyStartsWith "host " (pyLower (pyStrip x)) = false :=
      fun x hx => hD x (by simp [hx])
    show ∃ opts, D.foldl parseStep (parseStep ⟨es, some e, false⟩ d) = _
    by_cases hsk : pyStrip d = "" ∨ pyStartsWith "#" (pyStrip d) = true
    · rw [parseStep_skip hsk]
      exact ih hD' es e
    · push_neg at hsk
      have hcom : pyStartsWith "#" (pyStrip d) = false := by
        cases hb : pyStartsWith "#" (pyStrip d) with
        | true => exact absurd hb hsk.2
        | false => rfl
      rw [parseStep_directive rfl hsk.1 hcom hd]
      rcases hs : splitWsOnce (pyStrip d) with - | ⟨k, - | ⟨v, - | -⟩⟩
      · exact ih hD' es e
      · exact ih hD' es e
      · exact ih hD' es ⟨e.host_alias,
          assocSet e.options (pyLower (pyStrip k)) (pyStripQuotes (pyStrip v))⟩
      · exact ih hD' es e

theorem parseFold_skip {ls : List String}
    (h : ∀ l ∈ ls, pyStrip l = "" ∨ pyStartsWith "#" (pyStrip l) = true) :
    ∀ st : ParseState, ls.foldl parseStep st = st := by
  induction ls with
  | nil => intro st; rfl
  | cons l ls ih =>
    intro st
    show ls.foldl parseStep (parseStep st l) = st
    rw [parseStep_skip (h l (by simp))]
    exact ih (fun x hx => h x (by simp [hx])) st

theorem assocSet_lookup_self (opts : List (String × String)) (k v : String) :
    (assocSet opts k v).lookup k = some v := by
  induction opts with
  | nil => simp [assocSet, List.lookup]
  | cons p t ih =>
    obtain ⟨k', v'⟩ := p
    by_cases h : k' = k
    · subst h
      simp [assocSet, List.lookup]
    · have hb : (k == k') = false := by
        simp [beq_eq_false_iff_ne, Ne.symm h]
      simp [assocSet, h, List.lookup, hb, ih]

theorem assocSet_lookup_ne (opts : List (String × String)) (k v k' : String)
    (h : k' ≠ k) : (assocSet opts k v).lookup k' = opts.lookup k' := by
  have hb : (k' == k) = false := by simp [beq_eq_false_iff_ne, h]
  induction opts with
  | nil => simp [assocSet, List.lookup, hb]
  | cons p t ih =>
    obtain ⟨k0, v0⟩ := p
    by_cases h0 : k0 = k
    · subst h0
      simp [assocSet, List.lookup, hb]
    · by_cases hk : k' = k0
      · subst hk
        simp [assocSet, h0, List.lookup]
      · have hb0 : (k' == k0) = false := by simp [beq_eq_false_iff_ne, hk]
        simp [assocSet, h0, List.lookup, hb0, ih]

/-- C1: no entry returned by the parser has an alias containing `*`, `?`
or `!`; and an entire wildcard/negated `Host` block (its `Host` line plus
the directive lines up to the next `Host` line or end of file) can be cut
out of the input without changing the result: its directive lines attach
to no preceding or following entry of the output. -/
theorem C1_wildcard_entries :
    (∀ ls : List String, ∀ e ∈ parseLines ls,
      hasWildcard e.host_alias = false) ∧
    (∀ (A D B : List String) (hl : String),
      pyStartsWith "host " (pyLower (pyStrip hl)) = true →
      (∀ t, hostAliasToken (pyStrip hl) = some t → hasWildcard t = true) →
      (∀ d ∈ D, pyStartsWith "host " (pyLower (pyStrip d)) = false) →
      (B = [] ∨ ∃ b B', B = b :: B' ∧
          pyStartsWith "host " (pyLower (pyStrip b)) = true) →
      parseLines (A ++ hl :: (D ++ B)) = parseLines (A ++ B)) := by
  constructor
  · intro ls e he
    simp only [parseLines, List.mem_filter] at he
    simpa using he.2
  · intro A D B hl hhl hwild hD hB
    have habA : (parseLinesRaw A).aborted = false := parseLinesRaw_not_aborted A
    have hfold1 : parseLinesRaw (A ++ hl :: (D ++ B)) =
        (hl :: (D ++ B)).foldl parseStep (parseLinesRaw A) := by
      rw [parseLinesRaw, parseLinesRaw, List.foldl_append]
    have hfold2 : parseLinesRaw (A ++ B) =
        B.foldl parseStep (parseLinesRaw A) := by
      rw [parseLinesRaw, parseLinesRaw, List.foldl_append]
    obtain ⟨tok, htok, hstep⟩ := parseStep_host (parseLinesRaw A) habA hhl
    have hw : hasWildcard tok = true := hwild tok htok
    obtain ⟨opts, hDfold⟩ := parseFold_directives hD
      ((parseLinesRaw A).entries ++ (parseLinesRaw A).current.toList)
      ⟨tok, []⟩
    have hs2 : (hl :: (D ++ B)).foldl parseStep (parseLinesRaw A) =
        B.foldl parseStep
          ⟨(parseLinesRaw A).entries ++ (parseLinesRaw A).current.toList,
           some ⟨tok, opts⟩, false⟩ := by
      show (D ++ B).foldl parseStep (parseStep (parseLinesRaw A) hl) = _
      rw [hstep, List.foldl_append, hDfold]
    cases hB with
    | inl hBnil =>
      subst hBnil
      simp only [List.append_nil] at hfold1 hs2 ⊢
      have hLHS : parseLinesRaw (A ++ hl :: D) =
          ⟨(parseLinesRaw A).entries ++ (parseLinesRaw A).current.toList,
           some ⟨tok, opts⟩, false⟩ := by
        rw [hfold1, hs2]
        rfl
      simp only [parseLines, hLHS, habA]
      simp [List.filter_append, hw]
    | inr hBcons =>
      obtain ⟨b, B', hBeq, hostb⟩ := hBcons
      subst hBeq
      obtain ⟨tokb, htokb, hstepb1⟩ := parseStep_host
        ⟨(parseLinesRaw A).entries ++ (parseLinesRaw A).current.toList,
         some ⟨tok, opts⟩, false⟩ rfl hostb
      obtain ⟨tokb', htokb', hstepb2⟩ := parseStep_host
        (parseLinesRaw A) habA hostb
      have htb : tokb' = tokb := Option.some.inj (htokb'.symm.trans htokb)
      subst htb
      have hshift1 := parseFold_shift B'
        (((parseLinesRaw A).entries ++ (parseLinesRaw A).current.toList) ++
          [(⟨tok, opts⟩ : SshHostEntry)]) [] (some ⟨tokb', []⟩) false
      have hshift2 := parseFold_shift B'
        ((parseLinesRaw A).entries ++ (parseLinesRaw A).current.toList) []
        (some ⟨tokb', []⟩) false
      rw [List.append_nil] at hshift1 hshift2
      have hLHS : parseLinesRaw (A ++ hl :: (D ++ b :: B')) =
          B'.foldl parseStep
            ⟨(((parseLinesRaw A).entries ++
                (parseLinesRaw A).current.toList) ++
              [(⟨tok, opts⟩ : SshHostEntry)]), some ⟨tokb', []⟩, false⟩ := by
        rw [hfold1, hs2]
        show B'.foldl parseStep (parseStep _ b) = _
        rw [hstepb1]
        rfl
      have hRHS : parseLinesRaw (A ++ b :: B') =
          B'.foldl parseStep
            ⟨(parseLinesRaw A).entries ++ (parseLinesRaw A).current.toList,
             some ⟨tokb', []⟩, false⟩ := by
        rw [hfold2]
        show B'.foldl parseStep (parseStep _ b) = _
        rw [hstepb2]
      simp only [parseLines, hLHS, hRHS, hshift1, hshift2]
      simp [List.filter_append, hw]

theorem stripData_left_clean {A R : List Char} (hne : A ≠ [])
    (hall : ∀ x ∈ A, isPySpace x = false) :
    stripData (A ++ R) = A ++ R.rdropWhile isPySpace := by
  obtain ⟨a0, A', rfl⟩ := List.exists_cons_of_ne_nil hne
  rw [stripData]
  rw [List.cons_append,
    List.dropWhile_cons_of_neg (by simp [hall a0 (by simp)]),
    ← List.cons_append, List.rdropWhile, List.reverse_append,
    List.dropWhile_append]
  by_cases hq : R.reverse.dropWhile isPySpace = []
  · rw [if_pos (by simp [hq])]
    have hrev : ((a0 :: A').reverse).dropWhile isPySpace =
        (a0 :: A').reverse := by
      cases hrv : (a0 :: A').reverse with
      | nil => simp at hrv
      | cons c t =>
        have hc : c ∈ (a0 :: A') := by
          have hcc : c ∈ (a0 :: A').reverse := by rw [hrv]; simp
          rw [List.mem_reverse] at hcc
          exact hcc
        rw [List.dropWhile_cons_of_neg (by simp [hall c hc])]
    rw [hrev, List.reverse_reverse, List.rdropWhile, hq]
    simp
  · rw [if_neg (by simpa using hq)]
    rw [List.reverse_append, List.reverse_reverse, List.rdropWhile]

theorem hostAliasToken_explicit (hp a r : String)
    (hlow : pyLower hp = "host") (ha : a ≠ "")
    (hanonws : ∀ c ∈ a.data, isPySpace c = false)
    (hr : r = "" ∨ ∃ c cs, r.data = c :: cs ∧ isPySpace c = true) :
    hostAliasToken (hp ++ " " ++ a ++ r) = some a := by
  have hmap : hp.data.map Char.toLower = ['h', 'o', 's', 't'] :=
    congrArg String.data hlow
  rcases hdp : hp.data with - | ⟨p0, - | ⟨p1, - | ⟨p2, - | ⟨p3, - | ⟨p4, tl⟩⟩⟩⟩⟩ <;>
    rw [hdp] at hmap <;> simp at hmap
  obtain ⟨hm0, hm1, hm2, hm3⟩ := hmap
  have hp0 : isPySpace p0 = false := by rw [← isPySpace_toLower, hm0]; decide
  have hp1 : isPySpace p1 = false := by rw [← isPySpace_toLower, hm1]; decide
  have hp2 : isPySpace p2 = false := by rw [← isPySpace_toLower, hm2]; decide
  have hp3 : isPySpace p3 = false := by rw [← isPySpace_toLower, hm3]; decide
  have haD : a.data ≠ [] := by
    intro h
    apply ha
    cases a
    simp_all
  obtain ⟨a0, at', haeq⟩ := List.exists_cons_of_ne_nil haD
  have ha0 : isPySpace a0 = false := hanonws a0 (by rw [haeq]; simp)
  have hldata : (hp ++ " " ++ a ++ r).data =
      p0 :: p1 :: p2 :: p3 :: ' ' :: (a.data ++ r.data) := by
    simp [hdp]
  have h1 : ((hp ++ " " ++ a ++ r).data).dropWhile isPySpace =
      p0 :: p1 :: p2 :: p3 :: ' ' :: (a.data ++ r.data) := by
    rw [hldata, List.dropWhile_cons_of_neg (by simp [hp0])]
  have h2 : (p0 :: p1 :: p2 :: p3 :: ' ' :: (a.data ++ r.data)).takeWhile
      (fun c => !isPySpace c) = [p0, p1, p2, p3] := by
    rw [List.takeWhile_cons_of_pos (by simp [hp0]),
      List.takeWhile_cons_of_pos (by simp [hp1]),
      List.takeWhile_cons_of_pos (by simp [hp2]),
      List.takeWhile_cons_of_pos (by simp [hp3]),
      List.takeWhile_cons_of_neg (by simp [isPySpace])]
  have h3 : (p0 :: p1 :: p2 :: p3 :: ' ' :: (a.data ++ r.data)).dropWhile
      (fun c => !isPySpace c) = ' ' :: (a.data ++ r.data) := by
    rw [List.dropWhile_cons_of_pos (by simp [hp0]),
      List.dropWhile_cons_of_pos (by simp [hp1]),
      List.dropWhile_cons_of_pos (by simp [hp2]),
      List.dropWhile_cons_of_pos (by simp [hp3]),
      List.dropWhile_cons_of_neg (by simp [isPySpace])]
  have h4 : (' ' :: (a.data ++ r.data)).dropWhile isPySpace =
      a.data ++ r.data := by
    rw [List.dropWhile_cons_of_pos (by simp [isPySpace]), haeq,
      List.cons_append, List.dropWhile_cons_of_neg (by simp [ha0]),
      ← List.cons_append]
  have hsplit : splitWsOnce (hp ++ " " ++ a ++ r) =
      [⟨[p0, p1, p2, p3]⟩, ⟨a.data ++ r.data⟩] := by
    simp only [splitWsOnce, h1, h2, h3, h4]
    rw [if_neg (by simp), if_neg (by rw [haeq]; simp)]
  rw [hostAliasToken, hsplit]
  show firstTokenOf (pyStrip ⟨a.data ++ r.data⟩) = some a
  have hstrip : (pyStrip ⟨a.data ++ r.data⟩).data =
      a.data ++ r.data.rdropWhile isPySpace :=
    stripData_left_clean haD hanonws
  have hqcase : r.data.rdropWhile isPySpace = [] ∨
      ∃ c' q', r.data.rdropWhile isPySpace = c' :: q' ∧
        isPySpace c' = true := by
    cases hr with
    | inl hre =>
      left
      have : r.data = [] := by rw [hre]
      rw [this, List.rdropWhile_nil]
    | inr hrc =>
      obtain ⟨c, cs, hrd, hws⟩ := hrc
      cases hqq : r.data.rdropWhile isPySpace with
      | nil => left; rfl
      | cons c' q' =>
        right
        refine ⟨c', q', rfl, ?_⟩
        have hpre := List.rdropWhile_prefix isPySpace r.data
        rw [hqq, hrd] at hpre
        obtain ⟨s, hs⟩ := hpre
        have : c' = c := by
          have := congrArg (List.head?) hs
          simpa using this
        rw [this, hws]
  have htake : (a.data ++ r.data.rdropWhile isPySpace).takeWhile
      (fun c => !isPySpace c) = a.data := by
    rw [List.takeWhile_append_of_pos (by intro x hx; simp [hanonws x hx])]
    cases hqcase with
    | inl hq => rw [hq]; simp
    | inr hq =>
      obtain ⟨c', q', hq, hws⟩ := hq
      rw [hq, List.takeWhile_cons_of_neg (by simp [hws])]
      simp
  rw [firstTokenOf]
  simp only [hstrip]
  rw [show (a.data ++ r.data.rdropWhile isPySpace).dropWhile isPySpace =
      a.data ++ r.data.rdropWhile isPySpace from by
    rw [haeq, List.cons_append, List.dropWhile_cons_of_neg (by simp [ha0]),
      ← List.cons_append]]
  rw [if_neg (by rw [haeq]; simp), htake]

/-- C6 holds only for an actual space character after `Host`: a line such
as `"Host\tb"` (tab after the token) does not start a new block — it is
treated as a directive line of the enclosing block (or skipped when there
is none) instead of producing an entry with alias `b`. -/
theorem C6_tab_counterexample :
    parseLines ["Host\tb"] = [] ∧
    parseLines ["Host\tb"] ≠ [⟨"b", []⟩] ∧
    parseLines ["Host a", "Host\tb"] = [⟨"a", [("host", "b")]⟩] :=
  ⟨by decide, by decide, by decide⟩

/-- C6 (amended): a line whose stripped content begins with the
case-insensitive token `Host` followed by a SPACE character (not an
arbitrary whitespace character) starts a new block: the in-progress entry
is appended first, the first whitespace-separated token after `Host`
becomes the new entry's alias, and all further patterns on the line are
discarded. -/
theorem C6_host_space_amended :
    (∀ (st : ParseState) (raw : String), st.aborted = false →
      pyStartsWith "host " (pyLower (pyStrip raw)) = true →
      ∃ tok, hostAliasToken (pyStrip raw) = some tok ∧
        parseStep st raw =
          ⟨st.entries ++ st.current.toList, some ⟨tok, []⟩, false⟩) ∧
    (∀ hp a r : String, pyLower hp = "host" → a ≠ "" →
      (∀ c ∈ a.data, isPySpace c = false) →
      (r = "" ∨ ∃ c cs, r.data = c :: cs ∧ isPySpace c = true) →
      hostAliasToken (hp ++ " " ++ a ++ r) = some a) :=
  ⟨fun st _ hab hh => parseStep_host st hab hh, hostAliasToken_explicit⟩

theorem C6_host_space_amended_witness :
    (∃ tok, hostAliasToken (pyStrip "Host myhost other") = some tok ∧
      parseStep ⟨[], none, false⟩ "Host myhost other" =
        ⟨[], some ⟨tok, []⟩, false⟩) ∧
    hostAliasToken ("HoSt" ++ " " ++ "myhost" ++ " other") = some "myhost" := by
  constructor
  · exact C6_host_space_amended.1 ⟨[], none, false⟩ "Host myhost other" rfl
      (by decide)
  · exact C6_host_space_amended.2 "HoSt" "myhost" " other" (by decide)
      (by decide) (by decide) (Or.inr ⟨' ', "other".data, rfl, by decide⟩)

/-- C2: a directive line inside a block is split into at most two
whitespace-separated fields; a line that does not give exactly two fields
is skipped and leaves the state (in particular the current entry's
options) unchanged; for a two-field line the key is lower-cased, the
value is stripped of surrounding double quotes, and the pair overwrites
any earlier binding of the same key while other keys are untouched. -/
theorem C2_directive_handling :
    (∀ (st : ParseState) (e : SshHostEntry) (raw : String),
      st.aborted = false → st.current = some e →
      pyStrip raw ≠ "" → pyStartsWith "#" (pyStrip raw) = false →
      pyStartsWith "host " (pyLower (pyStrip raw)) = false →
      (∀ k v, splitWsOnce (pyStrip raw) = [k, v] →
        parseStep st raw = { st with current := some ⟨e.host_alias,
          assocSet e.options (pyLower (pyStrip k))
            (pyStripQuotes (pyStrip v))⟩ }) ∧
      ((splitWsOnce (pyStrip raw)).length ≠ 2 → parseStep st raw = st)) ∧
    (∀ (opts : List (String × String)) (k v : String),
      (assocSet opts k v).lookup k = some v ∧
      ∀ k', k' ≠ k → (assocSet opts k v).lookup k' = opts.lookup k') := by
  constructor
  · intro st e raw hab hcur hne hcom hh
    have hred := parseStep_directive hab hne hcom hh
    rw [hcur] at hred
    constructor
    · intro k v hs
      rw [hred, hs]
    · intro hlen
      rcases hs : splitWsOnce (pyStrip raw) with - | ⟨k, - | ⟨v, - | ⟨w, ws⟩⟩⟩
      · rw [hred, hs]
      · rw [hred, hs]
      · exact absurd (by simp [hs] : (splitWsOnce (pyStrip raw)).length = 2) hlen
      · rw [hred, hs]
  · intro opts k v
    exact ⟨assocSet_lookup_self opts k v,
      fun k' hk => assocSet_lookup_ne opts k v k' hk⟩

theorem C2_directive_handling_witness :
    parseStep ⟨[], some ⟨"h1", [("port", "1")]⟩, false⟩
        "HostName \"example.com\"" =
      ⟨[], some ⟨"h1", [("port", "1"), ("hostname", "example.com")]⟩,
       false⟩ ∧
    parseStep ⟨[], some ⟨"h1", [("port", "1")]⟩, false⟩ "single" =
      ⟨[], some ⟨"h1", [("port", "1")]⟩, false⟩ ∧
    (assocSet [("a", "1")] "a" "2").lookup "a" = some "2" := by
  refine ⟨?_, ?_, ?_⟩
  · have h := (C2_directive_handling.1
      ⟨[], some ⟨"h1", [("port", "1")]⟩, false⟩ ⟨"h1", [("port", "1")]⟩
      "HostName \"example.com\"" rfl rfl (by decide) (by decide)
      (by decide)).1 "HostName" "\"example.com\"" (by decide)
    rw [h]
    decide
  · exact (C2_directive_handling.1
      ⟨[], some ⟨"h1", [("port", "1")]⟩, false⟩ ⟨"h1", [("port", "1")]⟩
      "single" rfl rfl (by decide) (by decide) (by decide)).2 (by decide)
  · exact (C2_directive_handling.2 [("a", "1")] "a" "2").1

/-- C7: parsing cannot raise: the exception path of the loop (the
`aborted` flag) is unreachable for every line sequence, a missing file
yields `[]`, the empty file yields `[]`, and a file of only blank and
comment lines yields `[]`. -/
theorem C7_parse_never_raises :
    (∀ ls : List String, (parseLinesRaw ls).aborted = false) ∧
    parseFile none = [] ∧
    parseFile (some "") = [] ∧
    (∀ ls : List String,
      (∀ l ∈ ls, pyStrip l = "" ∨ pyStartsWith "#" (pyStrip l) = true) →
      parseLines ls = []) := by
  refine ⟨parseLinesRaw_not_aborted, rfl, by decide, ?_⟩
  intro ls h
  have hst : parseLinesRaw ls = ⟨[], none, false⟩ := parseFold_skip h _
  simp [parseLines, hst]

theorem C7_parse_never_raises_witness :
    parseLines ["# comment", "", "   "] = [] :=
  C7_parse_never_raises.2.2.2 _ (by decide)

theorem C1_wildcard_entries_witness :
    (∀ e ∈ parseLines ["Host *", "  User root", "Host a", "  hostname h"],
      hasWildcard e.host_alias = false) ∧
    parseLines (["Host x"] ++ "Host *w" :: (["  user root"] ++ ["Host y"])) =
      parseLines (["Host x"] ++ ["Host y"]) := by
  constructor
  · exact fun e he => C1_wildcard_entries.1 _ e he
  · exact C1_wildcard_entries.2 ["Host x"] ["  user root"] ["Host y"]
      "Host *w" (by decide)
      (fun t ht => by
        have h1 : hostAliasToken (pyStrip "Host *w") = some "*w" := by decide
        rw [h1] at ht
        cases ht
        decide)
      (by decide)
      (Or.inr ⟨"Host y", [], rfl, by decide⟩)

theorem string_eq_empty_of_data {s : String} (h : s.data = []) : s = "" := by
  cases s
  simp_all

theorem string_append_eq_empty_iff {s t : String} :
    s ++ t = "" ↔ s = "" ∧ t = "" := by
  constructor
  · intro h
    have hd := congrArg String.data h
    rw [String.data_append] at hd
    obtain ⟨h1, h2⟩ := List.append_eq_nil.mp hd
    exact ⟨string_eq_empty_of_data h1, string_eq_empty_of_data h2⟩
  · rintro ⟨rfl, rfl⟩
    rfl

/-- The `right` component of the display label as the specification
describes it (refinement reference for C5): `user@hostname` when both are
present, else `hostname` alone when present; `:port` appended when a port
is present; the literal placeholder when nothing was built. -/
def displayRightSpec (opts : List (String × String)) : String :=
  let h := optGet opts "hostname" ""
  let u := optGet opts "user" ""
  let p := optGet opts "port" ""
  let base := if u ≠ "" ∧ h ≠ "" then u ++ "@" ++ h
              else if h ≠ "" then h else ""
  let withPort := if p ≠ "" then base ++ ":" ++ p else base
  if withPort = "" then "(kein Hostname)" else withPort

/-- C5 (amended): the display label is `"{alias}  ({right})"` with
`right` exactly as the specification derives it; since the placeholder
`"(kein Hostname)"` itself contains parentheses, an entry with no
contributing options renders as `"alias  ((kein Hostname))"` (doubled
parentheses), not `"alias  (kein Hostname)"`. -/
theorem C5_display_amended :
    (∀ e : SshHostEntry, getDisplayLine e =
      e.host_alias ++ "  (" ++ displayRightSpec e.options ++ ")") ∧
    getDisplayLine ⟨"alias", [("port", "2222")]⟩ = "alias  (:2222)" ∧
    getDisplayLine ⟨"alias", []⟩ = "alias  ((kein Hostname))" ∧
    getDisplayLine ⟨"alias", [("hostname", "h"), ("user", "u")]⟩ =
      "alias  (u@h)" := by
  refine ⟨?_, by decide, by decide, by decide⟩
  intro e
  simp only [getDisplayLine, displayRightSpec]
  by_cases hU : optGet e.options "user" "" = "" <;>
    by_cases hH : optGet e.options "hostname" "" = "" <;>
    by_cases hP : optGet e.options "port" "" = "" <;>
    simp [hU, hH, hP, String.join, string_append_eq_empty_iff,
      String.append_assoc, show (":" : String) ≠ "" from by decide,
      show ("@" : String) ≠ "" from by decide]

/-- C5 is wrong about the entry with no options: the code wraps the
placeholder — which already contains parentheses — in the `({right})`
template, producing doubled parentheses. -/
theorem C5_placeholder_counterexample :
    getDisplayLine ⟨"alias", []⟩ = "alias  ((kein Hostname))" ∧
    getDisplayLine ⟨"alias", []⟩ ≠ "alias  (kein Hostname)" :=
  ⟨by decide, by decide⟩

theorem hexChar_mem (n : Nat) : hexChar n ∈ "0123456789abcdef".data := by
  rw [hexChar]
  have h : n % 16 < ("0123456789abcdef".data).length :=
    Nat.mod_lt _ (by decide)
  rw [List.getD_eq_getElem?_getD, List.getElem?_eq_getElem h]
  simp only [Option.getD_some]
  exact List.getElem_mem h

theorem md5Bytes_length (msg : List Nat) : (md5Bytes msg).length = 16 := by
  simp [md5Bytes, le4]

theorem hexOfBytes_pairs_length (bs : List Nat) :
    ((bs.map (fun b => [hexChar (b / 16), hexChar (b % 16)])).flatten).length =
      2 * bs.length := by
  induction bs with
  | nil => rfl
  | cons b t ih =>
    simp only [List.map_cons, List.flatten_cons, List.length_append,
      List.length_cons, ih]
    simp
    omega

theorem md5Hex_length (s : String) : (md5Hex s).data.length = 32 := by
  show ((md5Bytes (utf8Encode s)).map
    (fun b => [hexChar (b / 16), hexChar (b % 16)])).flatten.length = 32
  rw [hexOfBytes_pairs_length, md5Bytes_length]

theorem md5Hex_chars (s : String) :
    ∀ c ∈ (md5Hex s).data, c ∈ "0123456789abcdef".data := by
  intro c hc
  have hc' : c ∈ ((md5Bytes (utf8Encode s)).map
      (fun b => [hexChar (b / 16), hexChar (b % 16)])).flatten := hc
  rw [List.mem_flatten] at hc'
  obtain ⟨l, hl, hcl⟩ := hc'
  rw [List.mem_map] at hl
  obtain ⟨b, -, rfl⟩ := hl
  simp only [List.mem_cons, List.not_mem_nil, or_false] at hcl
  rcases hcl with rfl | rfl <;> exact hexChar_mem _

/-- C3's alias fallback is narrower than claimed: when the `hostname`
option is present but empty, `dict.get` returns the empty string and the
empty string is hashed — the alias is not.  At
`⟨"a", [("hostname", "")]⟩` the code yields the digest prefix of `""`
(`d41d8cd98f00`), not the digest prefix of the alias `"a"`
(`0cc175b9c0f1`) that the claim requires. -/
theorem C3_empty_hostname_counterexample :
    getHostHash ⟨"a", [("hostname", "")]⟩ = "d41d8cd98f00" ∧
    getHostHash ⟨"a", []⟩ = "0cc175b9c0f1" ∧
    getHostHash ⟨"a", [("hostname", "")]⟩ ≠
      ⟨(md5Hex "a").data.take 12⟩ :=
  ⟨by decide, by decide, by decide⟩

/-- C3 (amended): the fingerprint is the first 12 characters of the MD5
hex digest of `options["hostname"]` whenever that key is present — even
when its value is the empty string, in which case the empty string is
hashed — and of the alias only when the key is absent.  It is always a
12-character string of lowercase hex digits, and two entries carrying the
same `hostname` value share the same fingerprint. -/
theorem C3_fingerprint_amended :
    (∀ e : SshHostEntry, getHostHash e =
      ⟨(md5Hex (optGet e.options "hostname" e.host_alias)).data.take 12⟩) ∧
    (∀ e : SshHostEntry, e.options.lookup "hostname" = none →
      getHostHash e = ⟨(md5Hex e.host_alias).data.take 12⟩) ∧
    (∀ (e : SshHostEntry) (h : String),
      e.options.lookup "hostname" = some h →
      getHostHash e = ⟨(md5Hex h).data.take 12⟩) ∧
    (∀ e : SshHostEntry, (getHostHash e).length = 12 ∧
      ∀ c ∈ (getHostHash e).data, c ∈ "0123456789abcdef".data) ∧
    (∀ (e₁ e₂ : SshHostEntry) (h : String),
      e₁.options.lookup "hostname" = some h →
      e₂.options.lookup "hostname" = some h →
      getHostHash e₁ = getHostHash e₂) := by
  have hval : ∀ (e : SshHostEntry) (h : String),
      e.options.lookup "hostname" = some h →
      getHostHash e = ⟨(md5Hex h).data.take 12⟩ := by
    intro e h hl
    rw [getHostHash, optGet, hl]
  refine ⟨fun e => rfl, ?_, hval, ?_, ?_⟩
  · intro e hl
    rw [getHostHash, optGet, hl]
  · intro e
    constructor
    · show (getHostHash e).data.length = 12
      rw [getHostHash]
      show ((md5Hex _).data.take 12).length = 12
      rw [List.length_take, md5Hex_length]
      rfl
    · intro c hc
      have : c ∈ (md5Hex (optGet e.options "hostname" e.host_alias)).data :=
        List.mem_of_mem_take hc
      exact md5Hex_chars _ c this
  · intro e1 e2 h h1 h2
    rw [hval e1 h h1, hval e2 h h2]

theorem C3_fingerprint_amended_witness :
    getHostHash ⟨"x", []⟩ = ⟨(md5Hex "x").data.take 12⟩ ∧
    getHostHash ⟨"x", [("hostname", "h")]⟩ = ⟨(md5Hex "h").data.take 12⟩ ∧
    getHostHash ⟨"x", [("hostname", "h")]⟩ =
      getHostHash ⟨"y", [("user", "u"), ("hostname", "h")]⟩ :=
  ⟨C3_fingerprint_amended.2.1 ⟨"x", []⟩ rfl,
   C3_fingerprint_amended.2.2.1 ⟨"x", [("hostname", "h")]⟩ "h" rfl,
   C3_fingerprint_amended.2.2.2.2 ⟨"x", [("hostname", "h")]⟩
     ⟨"y", [("user", "u"), ("hostname", "h")]⟩ "h" rfl (by decide)⟩

/-! ### Characterizing the mutator -/

/-- One update of the `in_target_host` flag of `addKeyToConfig`. -/
def targetStep (a : String) (st : Bool) (l : String) : Bool :=
  if lineIsHost l = true ∧ pyContains a l = true then true
  else if lineIsHost l = true then false
  else st

def targetStateFrom (a : String) (t : Bool) (prev : List String) : Bool :=
  prev.foldl (targetStep a) t

/-- The `in_target_host` flag of `addKeyToConfig` after processing
`prev`: true exactly when the most recent `Host` line contained the
target alias as a substring. -/
def targetState (a : String) (prev : List String) : Bool :=
  targetStateFrom a false prev

/-- A line after which the mutator inserts: non-blank, not a comment, and
not a `Host` line. -/
def eligibleLine (l : String) : Bool :=
  !lineIsHost l && !(pyStrip l == "") && !pyStartsWith "#" (pyStrip l)

theorem addKeyAux_added (a path : String) (ls : List String) :
    ∀ t : Bool, addKeyAux a path t true ls = (ls, true) := by
  induction ls with
  | nil => intro t; rfl
  | cons l ls ih =>
    intro t
    rw [addKeyAux]
    split_ifs with h1 h2 h3
    · simp [ih]
    · simp [ih]
    · exact absurd h3.2.1 (by simp)
    · simp [ih]

theorem eligibleLine_parts {l : String} (h : eligibleLine l = true) :
    lineIsHost l = false ∧ pyStrip l ≠ "" ∧
      pyStartsWith "#" (pyStrip l) = false := by
  simp only [eligibleLine, Bool.and_eq_true, Bool.not_eq_true'] at h
  refine ⟨h.1.1, ?_, h.2⟩
  intro he
  rw [he] at h
  simp at h

theorem eligibleLine_of_parts {l : String} (h1 : lineIsHost l = false)
    (h2 : pyStrip l ≠ "") (h3 : pyStartsWith "#" (pyStrip l) = false) :
    eligibleLine l = true := by
  simp only [eligibleLine, Bool.and_eq_true, Bool.not_eq_true']
  refine ⟨⟨h1, ?_⟩, h3⟩
  simp [h2]

theorem addKeyAux_no_eligible (a path : String) :
    ∀ (ls : List String) (t : Bool),
      (∀ i (h : i < ls.length),
        ¬(targetStateFrom a t (ls.take i) = true ∧
          eligibleLine (ls.get ⟨i, h⟩) = true)) →
      addKeyAux a path t false ls = (ls, false) := by
  intro ls
  induction ls with
  | nil => intro t hno; rfl
  | cons l ls ih =>
    intro t hno
    have h0 : ¬(t = true ∧ eligibleLine l = true) := hno 0 (by simp)
    have hshift : ∀ t' : Bool, targetStep a t l = t' →
        ∀ i (h : i < ls.length),
        ¬(targetStateFrom a t' (ls.take i) = true ∧
          eligibleLine (ls.get ⟨i, h⟩) = true) := by
      intro t' ht i h hcontra
      apply hno (i + 1) (by simpa using Nat.succ_lt_succ h)
      constructor
      · show targetStateFrom a t (l :: ls.take i) = true
        show targetStateFrom a (targetStep a t l) (ls.take i) = true
        rw [ht]
        exact hcontra.1
      · exact hcontra.2
    rw [addKeyAux]
    split_ifs with h1 h2 h3
    · have hrec := ih true (hshift true (by simp [targetStep, h1]))
      simp [hrec]
    · have hcon : pyContains a l = false := by
        cases hb : pyContains a l with
        | false => rfl
        | true => exact absurd ⟨h2.2, hb⟩ h1
      have hrec := ih false
        (hshift false (by simp [targetStep, h1, h2.2, hcon]))
      simp [hrec]
    · exfalso
      have hhost : lineIsHost l = false := by
        cases hb : lineIsHost l with
        | false => rfl
        | true => exact absurd ⟨h3.1, hb⟩ h2
      exact h0 ⟨h3.1, eligibleLine_of_parts hhost h3.2.2.1 h3.2.2.2⟩
    · have hstep : targetStep a t l = t := by
        rw [targetStep, if_neg h1]
        by_cases hh : lineIsHost l = true
        · rw [if_pos hh]
          cases t with
          | false => rfl
          | true => exact absurd ⟨rfl, hh⟩ h2
        · rw [if_neg hh]
      have hrec := ih t (hshift t hstep)
      simp [hrec]

theorem addKeyAux_insert (a path : String) :
    ∀ (ls : List String) (t : Bool) (i : Nat) (h : i < ls.length),
      targetStateFrom a t (ls.take i) = true →
      eligibleLine (ls.get ⟨i, h⟩) = true →
      (∀ j, j < i → ∀ (hj2 : j < ls.length),
        ¬(targetStateFrom a t (ls.take j) = true ∧
          eligibleLine (ls.get ⟨j, hj2⟩) = true)) →
      addKeyAux a path t false ls =
        (ls.take (i + 1) ++ ("  IdentityFile " ++ path) :: ls.drop (i + 1),
         true) := by
  intro ls
  induction ls with
  | nil => intro t i h; exact absurd h (Nat.not_lt_zero i)
  | cons l ls ih =>
    intro t i h htarget heligible hmin
    cases i with
    | zero =>
      have ht : t = true := htarget
      have hel : eligibleLine l = true := heligible
      obtain ⟨hhost, hstrip, hcom⟩ := eligibleLine_parts hel
      rw [addKeyAux]
      rw [if_neg (by rintro ⟨h', -⟩; rw [hhost] at h'; cases h')]
      rw [if_neg (by rintro ⟨-, h'⟩; rw [hhost] at h'; cases h')]
      rw [if_pos ⟨ht, rfl, hstrip, hcom⟩]
      rw [addKeyAux_added]
      simp
    | succ i' =>
      have h' : i' < ls.length := by simpa using Nat.lt_of_succ_lt_succ h
      have h0 : ¬(t = true ∧ eligibleLine l = true) :=
        hmin 0 (Nat.succ_pos _) (by simp)
      have htarget' : targetStateFrom a (targetStep a t l) (ls.take i') =
          true := htarget
      have heligible' : eligibleLine (ls.get ⟨i', h'⟩) = true := heligible
      have hmin' : ∀ j, j < i' → ∀ (hj2 : j < ls.length),
          ¬(targetStateFrom a (targetStep a t l) (ls.take j) = true ∧
            eligibleLine (ls.get ⟨j, hj2⟩) = true) := by
        intro j hj hj2 hcontra
        apply hmin (j + 1) (Nat.succ_lt_succ hj)
          (by simpa using Nat.succ_lt_succ hj2)
        exact ⟨hcontra.1, hcontra.2⟩
      rw [addKeyAux]
      split_ifs with h1 h2 h3
      · have hstep : targetStep a t l = true := by simp [targetStep, h1]
        rw [hstep] at htarget' hmin'
        have hrec := ih true i' h' htarget' heligible' hmin'
        simp [hrec]
      · have hcon : pyContains a l = false := by
          cases hb : pyContains a l with
          | false => rfl
          | true => exact absurd ⟨h2.2, hb⟩ h1
        have hstep : targetStep a t l = false := by
          simp [targetStep, h1, h2.2, hcon]
        rw [hstep] at htarget' hmin'
        have hrec := ih false i' h' htarget' heligible' hmin'
        simp [hrec]
      · exfalso
        have hhost : lineIsHost l = false := by
          cases hb : lineIsHost l with
          | false => rfl
          | true => exact absurd ⟨h3.1, hb⟩ h2
        exact h0 ⟨h3.1, eligibleLine_of_parts hhost h3.2.2.1 h3.2.2.2⟩
      · have hstep : targetStep a t l = t := by
          rw [targetStep, if_neg h1]
          by_cases hh : lineIsHost l = true
          · rw [if_pos hh]
            cases t with
            | false => rfl
            | true => exact absurd ⟨rfl, hh⟩ h2
          · rw [if_neg hh]
        rw [hstep] at htarget' hmin'
        have hrec := ih t i' h' htarget' heligible' hmin'
        simp [hrec]

theorem addKeyAux_flag_false (a path : String) :
    ∀ (ls : List String) (t : Bool),
      (addKeyAux a path t false ls).2 = false →
      (addKeyAux a path t false ls).1 = ls := by
  intro ls
  induction ls with
  | nil => intro t h; rfl
  | cons l ls ih =>
    intro t h
    rw [addKeyAux] at h ⊢
    split_ifs at h ⊢ with h1 h2 h3
    · simp only [] at h ⊢
      rw [ih true h]
    · simp only [] at h ⊢
      rw [ih false h]
    · rw [addKeyAux_added] at h
      cases h
    · simp only [] at h ⊢
      rw [ih t h]

theorem addKeyAux_flag_true (a path : String) :
    ∀ (ls : List String) (t : Bool),
      (addKeyAux a path t false ls).2 = true →
      ∃ pre post, ls = pre ++ post ∧
        (addKeyAux a path t false ls).1 =
          pre ++ ("  IdentityFile " ++ path) :: post := by
  intro ls
  induction ls with
  | nil => intro t h; cases h
  | cons l ls ih =>
    intro t h
    rw [addKeyAux] at h ⊢
    split_ifs at h ⊢ with h1 h2 h3
    · obtain ⟨pre, post, hpp, hout⟩ := ih true h
      exact ⟨l :: pre, post, by rw [hpp, List.cons_append],
        by simp only []; rw [hout, List.cons_append]⟩
    · obtain ⟨pre, post, hpp, hout⟩ := ih false h
      exact ⟨l :: pre, post, by rw [hpp, List.cons_append],
        by simp only []; rw [hout, List.cons_append]⟩
    · refine ⟨[l], ls, by simp, ?_⟩
      rw [addKeyAux_added]
      simp
    · obtain ⟨pre, post, hpp, hout⟩ := ih t h
      exact ⟨l :: pre, post, by rw [hpp, List.cons_append],
        by simp only []; rw [hout, List.cons_append]⟩

/-- C4: `addKeyToConfig` inserts the line `"  IdentityFile {path}"`
exactly once, immediately after the first non-blank, non-comment,
non-`Host` line that lies in target state (i.e. follows a `Host` line
containing the alias, with no closer non-matching `Host` line), keeping
every other line in order; when the target block has no such directive
line before the next `Host` line or the end of the file, the lines are
returned unchanged with the flag `false`. -/
theorem C4_identity_insertion :
    ∀ (lines : List String) (a path : String),
      ((∀ i (h : i < lines.length),
          ¬(targetState a (lines.take i) = true ∧
            eligibleLine (lines.get ⟨i, h⟩) = true)) →
        addKeyLines lines a path = (lines, false)) ∧
      (∀ i (h : i < lines.length),
        targetState a (lines.take i) = true →
        eligibleLine (lines.get ⟨i, h⟩) = true →
        (∀ j, j < i → ∀ (hj2 : j < lines.length),
          ¬(targetState a (lines.take j) = true ∧
            eligibleLine (lines.get ⟨j, hj2⟩) = true)) →
        addKeyLines lines a path =
          (lines.take (i + 1) ++
            ("  IdentityFile " ++ path) :: lines.drop (i + 1), true)) := by
  intro lines a path
  constructor
  · intro hno
    exact addKeyAux_no_eligible a path lines false hno
  · intro i h htarget heligible hmin
    exact addKeyAux_insert a path lines false i h htarget heligible hmin

theorem C4_identity_insertion_witness :
    addKeyLines ["Host foo", "  HostName x", "  User u", "Host bar"]
        "foo" "/k" =
      (["Host foo", "  HostName x", "  IdentityFile /k", "  User u",
        "Host bar"], true) ∧
    addKeyLines ["Host foo", "Host bar", "  X Y"] "foo" "/k" =
      (["Host foo", "Host bar", "  X Y"], false) := by
  constructor
  · have h := (C4_identity_insertion
      ["Host foo", "  HostName x", "  User u", "Host bar"] "foo" "/k").2
      1 (by decide) (by decide) (by decide)
      (by
        intro j hj hj2
        have hj0 : j = 0 := by omega
        subst hj0
        exact (by decide :
          ¬(targetState "foo" ([] : List String) = true ∧
            eligibleLine "Host foo" = true)))
    rw [h]
    decide
  · exact (C4_identity_insertion ["Host foo", "Host bar", "  X Y"] "foo"
      "/k").1 (by decide)

/-- C10: `addKeyToConfig` preserves every input line verbatim and in
order: the returned line list is the input itself when the flag is
`false`, and the input with exactly one new `IdentityFile` line spliced
in when the flag is `true`; in particular the input is always a sublist
of the output. -/
theorem C10_frame_preservation :
    ∀ (lines : List String) (a path : String),
      lines.Sublist (addKeyLines lines a path).1 ∧
      ((addKeyLines lines a path).2 = false →
        (addKeyLines lines a path).1 = lines) ∧
      ((addKeyLines lines a path).2 = true →
        ∃ pre post, lines = pre ++ post ∧
          (addKeyLines lines a path).1 =
            pre ++ ("  IdentityFile " ++ path) :: post) := by
  intro lines a path
  have hfalse := addKeyAux_flag_false a path lines false
  have htrue := addKeyAux_flag_true a path lines false
  refine ⟨?_, hfalse, htrue⟩
  show lines.Sublist (addKeyAux a path false false lines).1
  cases hb : (addKeyAux a path false false lines).2 with
  | false =>
    rw [hfalse hb]
  | true =>
    obtain ⟨pre, post, hpp, hout⟩ := htrue hb
    rw [hout, hpp]
    exact (List.sublist_cons_self _ _).append_left pre

theorem C10_frame_preservation_witness :
    (["Host foo", "  HostName x"] : List String).Sublist
      (addKeyLines ["Host foo", "  HostName x"] "foo" "/k").1 ∧
    (addKeyLines ["Host z"] "foo" "/k").1 = ["Host z"] ∧
    ∃ pre post,
      (["Host foo", "  HostName x"] : List String) = pre ++ post ∧
      (addKeyLines ["Host foo", "  HostName x"] "foo" "/k").1 =
        pre ++ ("  IdentityFile " ++ "/k") :: post :=
  ⟨(C10_frame_preservation ["Host foo", "  HostName x"] "foo" "/k").1,
   (C10_frame_preservation ["Host z"] "foo" "/k").2.1 (by decide),
   (C10_frame_preservation ["Host foo", "  HostName x"] "foo" "/k").2.2
     (by decide)⟩

theorem hex4_u_round : ∀ m : Nat, m < 32 →
    hex4 '0' '0' (hexChar (m / 16)) (hexChar (m % 16)) = some m := by
  decide

theorem readJsonString_roundtrip :
    ∀ (cs rest : List Char),
      readJsonString ((cs.map jsonEscChar).flatten ++ '"' :: rest) =
        some (cs, rest) := by
  intro cs
  induction cs with
  | nil =>
    intro rest
    simp only [List.map_nil, List.flatten_nil, List.nil_append]
    rw [readJsonString.eq_def]
    simp
  | cons c cs ih =>
    intro rest
    rw [List.map_cons, List.flatten_cons, List.append_assoc]
    by_cases hb1 : c = '\\'
    · subst hb1
      rw [show jsonEscChar '\\' = ['\\', '\\'] from rfl]
      rw [List.cons_append, List.cons_append, readJsonString.eq_def]
      simp [ih]
    · by_cases hb2 : c = '"'
      · subst hb2
        rw [show jsonEscChar '"' = ['\\', '"'] from by
          rw [jsonEscChar, if_neg (by decide), if_pos rfl]]
        rw [List.cons_append, List.cons_append, readJsonString.eq_def]
        simp [ih]
      · by_cases hb3 : c.toNat = 8
        · have hc : c = Char.ofNat 8 := by rw [← Char.ofNat_toNat c, hb3]
          subst hc
          rw [show jsonEscChar (Char.ofNat 8) = ['\\', 'b'] from by decide]
          rw [List.cons_append, List.cons_append, readJsonString.eq_def]
          simp [ih]
        · by_cases hb4 : c = '\t'
          · subst hb4
            rw [show jsonEscChar '\t' = ['\\', 't'] from by decide]
            rw [List.cons_append, List.cons_append, readJsonString.eq_def]
            simp [ih]
          · by_cases hb5 : c = '\n'
            · subst hb5
              rw [show jsonEscChar '\n' = ['\\', 'n'] from by decide]
              rw [List.cons_append, List.cons_append, readJsonString.eq_def]
              simp [ih]
            · by_cases hb6 : c.toNat = 12
              · have hc : c = Char.ofNat 12 := by
                  rw [← Char.ofNat_toNat c, hb6]
                subst hc
                rw [show jsonEscChar (Char.ofNat 12) = ['\\', 'f'] from by
                  decide]
                rw [List.cons_append, List.cons_append, readJsonString.eq_def]
                simp [ih]
              · by_cases hb7 : c.toNat = 13
                · have hc : c = Char.ofNat 13 := by
                    rw [← Char.ofNat_toNat c, hb7]
                  subst hc
                  rw [show jsonEscChar (Char.ofNat 13) = ['\\', 'r'] from by
                    decide]
                  rw [List.cons_append, List.cons_append,
                    readJsonString.eq_def]
                  simp [ih]
                · by_cases hb8 : c.toNat < 32
                  · have henc : jsonEscChar c =
                        ['\\', 'u', '0', '0', hexChar (c.toNat / 16),
                         hexChar (c.toNat % 16)] := by
                      rw [jsonEscChar, if_neg hb1, if_neg hb2, if_neg hb3,
                        if_neg hb4, if_neg hb5, if_neg hb6, if_neg hb7,
                        if_pos hb8]
                    rw [henc]
                    have hhex := hex4_u_round c.toNat hb8
                    simp only [List.cons_append]
                    rw [readJsonString.eq_def]
                    simp [hhex, ih, Char.ofNat_toNat,
                      show c.toNat < 55296 from by omega]
                  · have henc : jsonEscChar c = [c] := by
                      rw [jsonEscChar, if_neg hb1, if_neg hb2, if_neg hb3,
                        if_neg hb4, if_neg hb5, if_neg hb6, if_neg hb7,
                        if_neg hb8]
                    rw [henc, List.singleton_append, readJsonString.eq_def]
                    simp [hb1, hb2, hb8, ih]

theorem string_mk_data (s : String) : (⟨s.data⟩ : String) = s := rfl

theorem skipWs_nl (X : List Char) : skipWs ('\n' :: X) = skipWs X := by
  rw [skipWs, List.dropWhile_cons_of_pos (by decide)]
  rfl

theorem skipWs_space (X : List Char) : skipWs (' ' :: X) = skipWs X := by
  rw [skipWs, List.dropWhile_cons_of_pos (by decide)]
  rfl

theorem skipWs_quote (X : List Char) : skipWs ('"' :: X) = '"' :: X := by
  rw [skipWs, List.dropWhile_cons_of_neg (by decide)]

theorem skipWs_colon (X : List Char) : skipWs (':' :: X) = ':' :: X := by
  rw [skipWs, List.dropWhile_cons_of_neg (by decide)]

theorem readMembers_chunk (k v : String) (tail : List Char) (fuel : Nat) :
    readMembers (fuel + 1)
      ('\n' :: ' ' :: ' ' :: ((jsonEncodeString k).data ++
        ':' :: ' ' :: ((jsonEncodeString v).data ++ tail))) =
      match skipWs tail with
      | ',' :: r5 => (readMembers fuel r5).map (fun p => ((k, v) :: p.1, p.2))
      | '}' :: r5 => some ([(k, v)], r5)
      | _ => none := by
  have hk : (jsonEncodeString k).data =
      '"' :: ((k.data.map jsonEscChar).flatten ++ ['"']) := rfl
  have hv : (jsonEncodeString v).data =
      '"' :: ((v.data.map jsonEscChar).flatten ++ ['"']) := rfl
  rw [readMembers.eq_def]
  simp only [hk, hv, List.cons_append, List.append_assoc, List.nil_append,
    List.singleton_append, skipWs_nl, skipWs_space, skipWs_quote,
    skipWs_colon, readJsonString_roundtrip, string_mk_data]

theorem skipWs_comma (X : List Char) : skipWs (',' :: X) = ',' :: X := by
  rw [skipWs, List.dropWhile_cons_of_neg (by decide)]

theorem skipWs_lbrace (X : List Char) : skipWs ('{' :: X) = '{' :: X := by
  rw [skipWs, List.dropWhile_cons_of_neg (by decide)]

theorem readMembers_chunk_comma (k v : String) (C : List Char) (fuel : Nat) :
    readMembers (fuel + 1)
      ('\n' :: ' ' :: ' ' :: ((jsonEncodeString k).data ++
        ':' :: ' ' :: ((jsonEncodeString v).data ++ ',' :: C))) =
      (readMembers fuel C).map (fun p => ((k, v) :: p.1, p.2)) := by
  rw [readMembers_chunk, skipWs_comma]
  rfl

theorem readMembers_chunk_last (k v : String) (fuel : Nat) :
    readMembers (fuel + 1)
      ('\n' :: ' ' :: ' ' :: ((jsonEncodeString k).data ++
        ':' :: ' ' :: ((jsonEncodeString v).data ++ ['\n', '}']))) =
      some ([(k, v)], []) := by
  rw [readMembers_chunk, skipWs_nl,
    show skipWs ['}'] = '}' :: [] from by decide]
  rfl

theorem skipWs_chunk_head (k : String) (X : List Char) :
    skipWs ('\n' :: ' ' :: ' ' :: ((jsonEncodeString k).data ++ X)) =
      '"' :: (((k.data.map jsonEscChar).flatten ++ ['"']) ++ X) := by
  rw [skipWs_nl, skipWs_space, skipWs_space,
    show (jsonEncodeString k).data =
      '"' :: ((k.data.map jsonEscChar).flatten ++ ['"']) from rfl,
    List.cons_append, skipWs_quote]

theorem readMembers_notes_body (a h n hsh : String) (fuel : Nat) :
    readMembers (fuel + 4)
      ('\n' :: ' ' :: ' ' :: ((jsonEncodeString "host_alias").data ++
        ':' :: ' ' :: ((jsonEncodeString a).data ++
        ',' :: '\n' :: ' ' :: ' ' :: ((jsonEncodeString "hostname").data ++
        ':' :: ' ' :: ((jsonEncodeString h).data ++
        ',' :: '\n' :: ' ' :: ' ' :: ((jsonEncodeString "notes").data ++
        ':' :: ' ' :: ((jsonEncodeString n).data ++
        ',' :: '\n' :: ' ' :: ' ' :: ((jsonEncodeString "hash").data ++
        ':' :: ' ' :: ((jsonEncodeString hsh).data ++
        ['\n', '}']))))))))) =
      some ([("host_alias", a), ("hostname", h), ("notes", n),
             ("hash", hsh)], []) := by
  rw [show fuel + 4 = (fuel + 3) + 1 from rfl, readMembers_chunk_comma,
    show fuel + 3 = (fuel + 2) + 1 from rfl, readMembers_chunk_comma,
    show fuel + 2 = (fuel + 1) + 1 from rfl, readMembers_chunk_comma,
    readMembers_chunk_last]
  rfl

theorem parseNotesDoc_dumps (a h n hsh : String) :
    parseNotesDoc (dumpsNotes a h n hsh) =
      some [("host_alias", a), ("hostname", h), ("notes", n),
            ("hash", hsh)] := by
  have hdoc : (dumpsNotes a h n hsh).data =
      '{' :: '\n' :: ' ' :: ' ' :: ((jsonEncodeString "host_alias").data ++
        ':' :: ' ' :: ((jsonEncodeString a).data ++
        ',' :: '\n' :: ' ' :: ' ' :: ((jsonEncodeString "hostname").data ++
        ':' :: ' ' :: ((jsonEncodeString h).data ++
        ',' :: '\n' :: ' ' :: ' ' :: ((jsonEncodeString "notes").data ++
        ':' :: ' ' :: ((jsonEncodeString n).data ++
        ',' :: '\n' :: ' ' :: ' ' :: ((jsonEncodeString "hash").data ++
        ':' :: ' ' :: ((jsonEncodeString hsh).data ++
        ['\n', '}'])))))))) := by
    have s1 : ("\x7b\n  " : String).data = ['{', '\n', ' ', ' '] := rfl
    have s2 : (": " : String).data = [':', ' '] := rfl
    have s3 : (",\n  " : String).data = [',', '\n', ' ', ' '] := rfl
    have s4 : ("\n\x7d" : String).data = ['\n', '}'] := rfl
    simp only [dumpsNotes, String.data_append, s1, s2, s3, s4,
      List.cons_append, List.append_assoc, List.nil_append]
  have hge : 3 ≤ (dumpsNotes a h n hsh).length := by
    rw [show (dumpsNotes a h n hsh).length =
        (dumpsNotes a h n hsh).data.length from rfl, hdoc]
    simp
  have hfuel : (dumpsNotes a h n hsh).length + 1 =
      ((dumpsNotes a h n hsh).length - 3) + 4 := by omega
  simp only [parseNotesDoc, hdoc, skipWs_lbrace, skipWs_chunk_head]
  rw [hfuel]
  rw [readMembers_notes_body]
  rfl

/-- C8: saving notes and loading them back returns exactly the saved
text, for every entry and every notes string (the JSON encoder and the
reader are exact inverses); loading with no note file present, or with an
unparsable note file, returns the empty string. -/
theorem C8_notes_roundtrip :
    (∀ (store : List (String × String)) (e : SshHostEntry) (notes : String),
      loadNotes (saveNotes store e notes) e = notes) ∧
    (∀ (store : List (String × String)) (e : SshHostEntry),
      store.lookup (getNotesPath e) = none → loadNotes store e = "") ∧
    (∀ (store : List (String × String)) (e : SshHostEntry) (txt : String),
      store.lookup (getNotesPath e) = some txt → parseNotesDoc txt = none →
      loadNotes store e = "") := by
  refine ⟨?_, ?_, ?_⟩
  · intro store e notes
    have h1 : ("notes" == "host_alias") = false := by decide
    have h2 : ("notes" == "hostname") = false := by decide
    have h3 : ("notes" == "notes") = true := by decide
    simp only [loadNotes, saveNotes, assocSet_lookup_self,
      parseNotesDoc_dumps, optGet, List.lookup, h1, h2, h3]
  · intro store e hl
    simp only [loadNotes, hl]
  · intro store e txt hl hp
    simp only [loadNotes, hl, hp]

theorem C8_notes_roundtrip_witness :
    loadNotes (saveNotes [] ⟨"al", [("hostname", "hh")]⟩ "my notes ✓")
        ⟨"al", [("hostname", "hh")]⟩ = "my notes ✓" ∧
    loadNotes [] ⟨"al", []⟩ = "" ∧
    loadNotes [(getNotesPath ⟨"al", []⟩, "not json")] ⟨"al", []⟩ = "" :=
  ⟨C8_notes_roundtrip.1 [] ⟨"al", [("hostname", "hh")]⟩ "my notes ✓",
   C8_notes_roundtrip.2.1 [] ⟨"al", []⟩ rfl,
   C8_notes_roundtrip.2.2 [(getNotesPath ⟨"al", []⟩, "not json")]
     ⟨"al", []⟩ "not json" (by simp [List.lookup]) (by decide)⟩

theorem string_append_empty (s : String) : s ++ "" = s := by
  cases s with
  | mk d =>
    show (⟨d ++ []⟩ : String) = ⟨d⟩
    rw [List.append_nil]

theorem strFoldl_append_init :
    ∀ (ls : List String) (s t : String),
      s ++ ls.foldl (· ++ ·) t = ls.foldl (· ++ ·) (s ++ t) := by
  intro ls
  induction ls with
  | nil => intro s t; rfl
  | cons l ls ih =>
    intro s t
    show s ++ ls.foldl (· ++ ·) (t ++ l) = ls.foldl (· ++ ·) (s ++ t ++ l)
    rw [ih, String.append_assoc]

theorem strJoin_cons (x : String) (xs : List String) :
    String.join (x :: xs) = x ++ String.join xs := by
  show xs.foldl (· ++ ·) ("" ++ x) = x ++ xs.foldl (· ++ ·) ""
  rw [strFoldl_append_init, string_append_empty]
  rfl

theorem logRuns_content (host_alias : String) :
    ∀ (calls : List LogCall) (store : List (String × String)) (c : LogCall),
      (logRuns store host_alias (c :: calls)).lookup (host_alias ++ ".log") =
        some (optGet store (host_alias ++ ".log") "" ++
          String.join ((c :: calls).map logLineOf)) := by
  intro calls
  induction calls with
  | nil =>
    intro store c
    show (logSession store host_alias c.timestamp c.connection_type
        c.success c.sel).lookup (host_alias ++ ".log") = _
    simp only [logSession, assocSet_lookup_self, List.map_cons,
      List.map_nil, strJoin_cons, logLineOf]
    rw [show String.join ([] : List String) = "" from rfl,
      string_append_empty]
  | cons c2 calls ih =>
    intro store c
    show (logRuns (logSession store host_alias c.timestamp c.connection_type
        c.success c.sel) host_alias (c2 :: calls)).lookup
        (host_alias ++ ".log") = _
    rw [ih]
    have hacc : optGet (logSession store host_alias c.timestamp
        c.connection_type c.success c.sel) (host_alias ++ ".log") "" =
        optGet store (host_alias ++ ".log") "" ++ logLineOf c := by
      simp only [logSession, optGet, assocSet_lookup_self, logLineOf]
    rw [hacc]
    simp only [List.map_cons, strJoin_cons, String.append_assoc]

theorem strJoin_count_nl :
    ∀ (ls : List String), (∀ l ∈ ls, l.data.count '\n' = 1) →
      (String.join ls).data.count '\n' = ls.length := by
  intro ls
  induction ls with
  | nil => intro h; rfl
  | cons l ls ih =>
    intro h
    rw [strJoin_cons, String.data_append, List.count_append,
      h l (by simp), ih (fun x hx => h x (by simp [hx]))]
    simp [Nat.add_comm]

/-- C9: each call of the session-log operation appends exactly one line
of the fixed form to `{host_alias}.log` — prior content is never
truncated — so N calls starting from any store leave the old content
followed by the N lines in call order; with newline-free fields that is
exactly N lines; the port field is the entry's `port` option and defaults
to `"22"` when the option is absent. -/
theorem C9_session_log :
    (∀ (store : List (String × String)) (host_alias : String)
        (ts m : String) (success : Bool) (sel : Option SshHostEntry),
      logSession store host_alias ts m success sel =
        assocSet store (host_alias ++ ".log")
          (optGet store (host_alias ++ ".log") "" ++
            logLine ts m success sel)) ∧
    (∀ (store : List (String × String)) (host_alias : String)
        (c : LogCall) (calls : List LogCall),
      (logRuns store host_alias (c :: calls)).lookup
          (host_alias ++ ".log") =
        some (optGet store (host_alias ++ ".log") "" ++
          String.join ((c :: calls).map logLineOf))) ∧
    (∀ (ts m : String) (success : Bool) (sel : Option SshHostEntry),
      logLine ts m success sel =
        "[" ++ ts ++ "] " ++ m ++ " (" ++
        (if success then "✓ Erfolg" else "✗ Fehler") ++ ") | user@host: " ++
        selUserName sel ++ "@" ++ selHostName sel ++ ":" ++ selPort sel ++
        "\n") ∧
    (∀ e : SshHostEntry, e.options.lookup "port" = none →
      selPort (some e) = "22") ∧
    (∀ (e : SshHostEntry) (p : String),
      e.options.lookup "port" = some p → selPort (some e) = p) ∧
    (∀ calls : List LogCall, (∀ c ∈ calls, (logLineOf c).data.count '\n' = 1) →
      (String.join (calls.map logLineOf)).data.count '\n' = calls.length) := by
  refine ⟨fun _ _ _ _ _ _ => rfl, fun store a c calls => logRuns_content a calls store c,
    fun _ _ _ _ => rfl, ?_, ?_, ?_⟩
  · intro e hl
    simp only [selPort, optGet, hl]
  · intro e p hl
    simp only [selPort, optGet, hl]
  · intro calls h
    rw [show calls.length = (calls.map logLineOf).length from by simp]
    exact strJoin_count_nl _ (by
      intro l hl
      rw [List.mem_map] at hl
      obtain ⟨c, hc, rfl⟩ := hl
      exact h c hc)

theorem C9_session_log_witness :
    (logRuns [] "srv"
        [⟨"2026-01-01 10:00:00", "SSH", true,
          some ⟨"srv", [("hostname", "hh"), ("user", "uu")]⟩⟩,
         ⟨"2026-01-01 11:00:00", "PuTTY", false, none⟩]).lookup
        ("srv" ++ ".log") =
      some ("[2026-01-01 10:00:00] SSH (✓ Erfolg) | user@host: uu@hh:22\n" ++
        "[2026-01-01 11:00:00] PuTTY (✗ Fehler) | user@host: N/A@N/A:22\n") ∧
    selPort (some ⟨"srv", [("hostname", "hh")]⟩) = "22" ∧
    selPort (some ⟨"srv", [("port", "2222")]⟩) = "2222" ∧
    (String.join
      (([⟨"t1", "SSH", true, none⟩, ⟨"t2", "SSH", false, none⟩] :
        List LogCall).map logLineOf)).data.count '\n' = 2 := by
  refine ⟨?_, ?_, ?_, ?_⟩
  · rw [C9_session_log.2.1 [] "srv"
      ⟨"2026-01-01 10:00:00", "SSH", true,
        some ⟨"srv", [("hostname", "hh"), ("user", "uu")]⟩⟩
      [⟨"2026-01-01 11:00:00", "PuTTY", false, none⟩]]
    decide
  · exact C9_session_log.2.2.2.1 ⟨"srv", [("hostname", "hh")]⟩ rfl
  · exact C9_session_log.2.2.2.2.1 ⟨"srv", [("port", "2222")]⟩ "2222" rfl
  · exact C9_session_log.2.2.2.2.2
      [⟨"t1", "SSH", true, none⟩, ⟨"t2", "SSH", false, none⟩] (by decide)
